import Mathlib

/-!
# ckb-daemon: lighting encoder, command-channel reader and device nodes

A shallow embedding of `src/ckb-daemon/led_mouse.c` and
`src/ckb-daemon/devnode.c` (with the data model of `structures.h`), and
theorems about the embedded functions.

Conventions.  A C byte is a `Nat`; a C `int` result is an `Int`, and a sum of
`int`s is taken in 32 bits; a pointer into an array is the list of the bytes
from that position on.  State that the C code keeps in statics, in the device
record or in the operating system is passed explicitly, and what the C standard
leaves to the libc is a parameter.
-/

namespace Ckb

/-! ## Data model (`structures.h`) -/

/-- Size of one transport packet (`MSG_SIZE`). -/
def MSG_SIZE : Nat := 64

/-- Maximum number of notification nodes (`OUTFIFO_MAX`). -/
def OUTFIFO_MAX : Nat := 10

/-- Device feature: RGB backlighting. -/
def FEAT_RGB : Nat := 0x01

/-- Device feature: known poll rate. -/
def FEAT_POLLRATE : Nat := 0x02

/-- Device feature: rebindable keys. -/
def FEAT_BIND : Nat := 0x04

/-- Device feature: key notifications. -/
def FEAT_NOTIFY : Nat := 0x08

/-- Device feature: has firmware version. -/
def FEAT_FWVERSION : Nat := 0x10

/-- Device feature: has firmware update. -/
def FEAT_FWUPDATE : Nat := 0x20

/-- The constants of `keymap.h` used by the lighting code.  That header is not
among the sources, so its values are parameters. -/
structure Keymap where
  LED_MOUSE : Nat
  N_MOUSE_ZONES : Nat
deriving DecidableEq, Repr

/-- Lighting structure for a mode: three parallel byte arrays. -/
structure lighting where
  r : List Nat
  g : List Nat
  b : List Nat
deriving DecidableEq, Repr

/-- Native mode structure (the lighting member). -/
structure usbmode where
  light : lighting
deriving DecidableEq, Repr

/-- Native profile structure: the selected mode and the last RGB data sent. -/
structure usbprofile where
  currentmode : usbmode
  lastlight : lighting
deriving DecidableEq, Repr

/-- Structure for tracking keyboard/mouse devices (the members used by the
embedded functions).  The bytes `features` and `active` and the unsigned short
`fwversion` are held by their unsigned values; `pollrate` is the poll rate in
nanoseconds, or -1 if unsupported. -/
structure usbdevice where
  profile : usbprofile
  infifo : Nat
  outfifo : List Nat
  features : Nat
  active : Nat
  name : String
  serial : String
  vendor : Nat
  product : Nat
  fwversion : Nat
  pollrate : Int
deriving DecidableEq, Repr

/-- Feature test `HAS_FEATURES(kb, feat)`. -/
def HAS_FEATURES (kb : usbdevice) (feat : Nat) : Bool :=
  (kb.features &&& feat) == feat

/-! ## Transport capability and libc -/

/-- Modelled from the spec: the transport `usbsend` is an external capability
that sends one fixed-size packet and returns success or failure.  `calls`
records every packet handed to the transport, oldest first; `outcomes` fixes
the result of each coming call (a call beyond the list fails). -/
structure Usb where
  calls : List (List Nat)
  outcomes : List Bool
deriving DecidableEq, Repr

/-- Modelled from the spec: `usbsend(kb, pkt, 1)`, nonzero on success. -/
def usbsend (u : Usb) (pkt : List Nat) : Bool × Usb :=
  match u.outcomes with
  | [] => (false, ⟨u.calls ++ [pkt], []⟩)
  | ok :: rest => (ok, ⟨u.calls ++ [pkt], rest⟩)

/-- A value as a C `int` of 32 bits in two's complement: a sum that leaves the
range wraps around. -/
def cint (x : Int) : Int :=
  (x + 2147483648) % 4294967296 - 2147483648

/-- The order of two byte ranges, which `memcmp` reports by the sign of its
result: 0 when the first `n` bytes agree, otherwise -1 or 1 as the first pair
of bytes that differ is ordered. -/
def memcmpOrder : List Nat → List Nat → Nat → Int
  | _, _, 0 => 0
  | l, r, n + 1 =>
    if l.headD 0 = r.headD 0 then memcmpOrder l.tail r.tail n
    else if l.headD 0 < r.headD 0 then -1 else 1

/-- The size that a libc gives to a nonzero result of `memcmp` on given
arguments.  C fixes the sign of the result only, so the size is a parameter of
the embedding; a value `v` stands for the size `1 + v % 2147483647`, which
ranges over the positive values of an `int`. -/
abbrev MemcmpSize := List Nat → List Nat → Nat → Nat

/-- The libc routine `memcmp(lhs, rhs, n)`: zero when the first `n` bytes agree,
otherwise a result with the sign of the order of the first pair of bytes that
differ and with the size that the libc chooses. -/
def memcmp (size : MemcmpSize) (l r : List Nat) (n : Nat) : Int :=
  memcmpOrder l r n * ((1 + size l r n % 2147483647 : Nat) : Int)

/-- The absolute difference of the first pair of bytes that differ among the
first `n`, and 0 when there is none. -/
def firstDifference : List Nat → List Nat → Nat → Nat
  | _, _, 0 => 0
  | l, r, n + 1 =>
    if l.headD 0 = r.headD 0 then firstDifference l.tail r.tail n
    else if l.headD 0 < r.headD 0 then r.headD 0 - l.headD 0 else l.headD 0 - r.headD 0

/-- The sizes of a bytewise routine: the result is the difference of the first
pair of bytes that differ. -/
def byteSize : MemcmpSize :=
  fun l r n => firstDifference l r n - 1

/-- The sizes of a routine that compares whole words: the result is the
difference of the first pair of bytes that differ, 23 bits further up. -/
def wideSize : MemcmpSize :=
  fun l r n => firstDifference l r n * 8388608 - 1

/-! ## `led_mouse.c` -/

/-- Compare two light structures, ignore keys.  The three results are added as
C `int`s. -/
def rgbcmp (size : MemcmpSize) (km : Keymap) (lhs rhs : lighting) : Int :=
  cint (memcmp size (lhs.r.drop km.LED_MOUSE) (rhs.r.drop km.LED_MOUSE) km.N_MOUSE_ZONES
    + memcmp size (lhs.g.drop km.LED_MOUSE) (rhs.g.drop km.LED_MOUSE) km.N_MOUSE_ZONES
    + memcmp size (lhs.b.drop km.LED_MOUSE) (rhs.b.drop km.LED_MOUSE) km.N_MOUSE_ZONES)

/-- Return true if all mouse zones are black. -/
def isblack (size : MemcmpSize) (km : Keymap) (light : lighting) : Bool :=
  let black := List.replicate km.N_MOUSE_ZONES 0
  memcmp size (light.r.drop km.LED_MOUSE) black km.N_MOUSE_ZONES == 0
    && memcmp size (light.g.drop km.LED_MOUSE) black km.N_MOUSE_ZONES == 0
    && memcmp size (light.b.drop km.LED_MOUSE) black km.N_MOUSE_ZONES == 0

/-- The initialiser of `data_pkt[2][MSG_SIZE]`, as one flat array: the colour
packet at offset 0 and the on/off packet at offset `MSG_SIZE`. -/
def data_pkt_init : List Nat :=
  ([0x07, 0x22, 0x04, 0x01] ++ List.replicate 60 0)
    ++ ([0x07, 0x05, 0x02] ++ List.replicate 61 0)

/-- One turn of the zone loop: four stores through `rgb_data`, which points at
offset `4 + 4 * i` of the flat array when turn `i` starts. -/
def rgbStep (km : Keymap) (newlight : lighting) (pkt : List Nat) (i : Nat) : List Nat :=
  (((pkt.set (4 + 4 * i) ((i + 1) % 256)).set (4 + 4 * i + 1)
      (newlight.r.getD (km.LED_MOUSE + i) 0)).set (4 + 4 * i + 2)
      (newlight.g.getD (km.LED_MOUSE + i) 0)).set (4 + 4 * i + 3)
      (newlight.b.getD (km.LED_MOUSE + i) 0)

/-- The loop `for(int i = 0; i < N_MOUSE_ZONES; i++)` over the flat array. -/
def rgbLoop (km : Keymap) (newlight : lighting) (pkt : List Nat) : List Nat :=
  (List.range km.N_MOUSE_ZONES).foldl (rgbStep km newlight) pkt

/-- Row `data_pkt[row]` of the flat array. -/
def pktRow (flat : List Nat) (row : Nat) : List Nat :=
  (flat.drop (row * MSG_SIZE)).take MSG_SIZE

/-- The function `updatergb_mouse(kb, force)`: result, device record and
transport afterwards.  `size` is the libc's choice in `memcmp`. -/
def updatergb_mouse (size : MemcmpSize) (km : Keymap) (kb : usbdevice) (force : Int)
    (u : Usb) : Int × usbdevice × Usb :=
  if kb.active = 0 then (0, kb, u)
  else
    let lastlight := kb.profile.lastlight
    let newlight := kb.profile.currentmode.light
    -- Don't do anything if the lighting hasn't changed
    if force = 0 ∧ rgbcmp size km lastlight newlight = 0 then (0, kb, u)
    else
      let data_pkt := rgbLoop km newlight data_pkt_init
      let was_black := isblack size km lastlight
      let is_black := isblack size km newlight
      -- Send RGB data
      let s0 := usbsend u (pktRow data_pkt 0)
      if s0.1 = false then (-1, kb, s0.2)
      else if is_black then
        -- If the lighting is black, send the deactivation packet
        let s1 := usbsend s0.2 (pktRow data_pkt 1)
        if s1.1 = false then (-1, kb, s1.2)
        else (0, { kb with profile := { kb.profile with lastlight := newlight } }, s1.2)
      else if was_black ∨ force ≠ 0 then
        -- If the lighting WAS black, send the activation packet
        let s1 := usbsend s0.2 (pktRow (data_pkt.set (1 * MSG_SIZE + 4) 1) 1)
        if s1.1 = false then (-1, kb, s1.2)
        else (0, { kb with profile := { kb.profile with lastlight := newlight } }, s1.2)
      else (0, { kb with profile := { kb.profile with lastlight := newlight } }, s0.2)

/-- All mouse zones of one channel are zero: zone `i` is read at index
`LED_MOUSE + i`. -/
def zoneBlack (km : Keymap) (ch : List Nat) : Prop :=
  ∀ i, i < km.N_MOUSE_ZONES → ch.getD (km.LED_MOUSE + i) 0 = 0

instance (km : Keymap) (ch : List Nat) : Decidable (zoneBlack km ch) := by
  unfold zoneBlack
  infer_instance

/-- The four-byte groups written by the first `n` turns of the zone loop. -/
def zoneGroups (km : Keymap) (newlight : lighting) (n : Nat) : List Nat :=
  ((List.range n).map (fun i =>
    [(i + 1) % 256, newlight.r.getD (km.LED_MOUSE + i) 0,
      newlight.g.getD (km.LED_MOUSE + i) 0, newlight.b.getD (km.LED_MOUSE + i) 0])).flatten

/-- The colour-update packet: command header, one group per zone, zero fill. -/
def colourPacket (km : Keymap) (newlight : lighting) : List Nat :=
  [0x07, 0x22, 0x04, 0x01] ++ zoneGroups km newlight km.N_MOUSE_ZONES
    ++ List.replicate (60 - 4 * km.N_MOUSE_ZONES) 0

/-- The lighting on/off packet with the given state byte. -/
def switchPacket (state : Nat) : List Nat :=
  [0x07, 0x05, 0x02, 0, state] ++ List.replicate 59 0

/-- The transport results of the first `k` calls made on `u`; a call beyond the
list of outcomes fails. -/
def callResults (u : Usb) (k : Nat) : List Bool :=
  (List.range k).map (fun i => u.outcomes.getD i false)

/-! ## `devnode.c`: the command-channel reader -/

/-- The hard ceiling `MAX_BUFFER`. -/
def MAX_BUFFER : Nat := 1024 * 1024 - 1

/-- A readable handle.  `pending` holds the bytes of the stream that no `read`
has returned yet; `sched` gives, for each coming `read`, how many bytes the
system has ready at that moment (0 when nothing is ready, the handle is at end
of file or the call fails).  An exhausted schedule delivers nothing. -/
structure Fd where
  pending : List Nat
  sched : List Nat
deriving DecidableEq, Repr

/-- The system call `read(fd, buf, count)`: the bytes it returns (none when the
call yields 0 or -1) and the handle afterwards. -/
def read (fd : Fd) (count : Nat) : List Nat × Fd :=
  match fd.sched with
  | [] => ([], fd)
  | k :: ks => (fd.pending.take (min k count), ⟨fd.pending.drop (min k count), ks⟩)

/-- The statics of `readlines`.  `buffer` lists the bytes of the heap block from
its start; bytes never written are not listed. -/
structure Statics where
  buffersize : Nat
  leftover : Nat
  leftoverlen : Nat
  buffer : List Nat
deriving DecidableEq, Repr

/-- The statics before the first call: `buffersize = 4095`, no carryover, a
freshly allocated block. -/
def Statics.initial : Statics := ⟨4095, 0, 0, []⟩

/-- Store `data` in `buf` from offset `off` on, as `memcpy` and `read` do with
their destination; the source is read before anything is written. -/
def store (buf : List Nat) (off : Nat) (data : List Nat) : List Nat :=
  buf.take off ++ data ++ buf.drop (off + data.length)

/-- The libc routine `memrchr(buf, c, n)`: the offset of the last `c` among the
first `n` bytes, or none for the null pointer. -/
def memrchr (buf : List Nat) (c : Nat) : Nat → Option Nat
  | 0 => none
  | n + 1 => if buf.getD n 0 = c then some n else memrchr buf c n

/-- The loop `while(length == buffersize)` of `readlines`: capacity, buffer,
length and handle when it exits.  Each turn issues one `read`, so the recursion
follows the schedule of the handle. -/
def growLoop (buffersize : Nat) (buffer : List Nat) (length : Nat) (pending : List Nat)
    (sched : List Nat) : Nat × List Nat × Nat × Fd :=
  if length = buffersize then
    if buffersize = MAX_BUFFER then (buffersize, buffer, length, ⟨pending, sched⟩)
    else
      let oldsize := buffersize
      let buffersize := buffersize + 4096
      let r := read ⟨pending, sched⟩ (buffersize - oldsize)
      if r.1.length = 0 then (buffersize, buffer, length, r.2)
      else
        match sched with
        | [] => (buffersize, buffer, length, r.2)
        | _ :: ks => growLoop buffersize (store buffer oldsize r.1) (length + r.1.length)
            r.2.pending ks
  else (buffersize, buffer, length, ⟨pending, sched⟩)

/-- What `readlines` hands to its caller: `input` is none for the null pointer
and otherwise the contents of the buffer that `*input` points at; `ret` is the
returned count. -/
structure Output where
  input : Option (List Nat)
  ret : Nat
deriving DecidableEq, Repr

/-- The function `readlines(fd, input)`: the output, the statics and the
handle after the call. -/
def readlines (s : Statics) (fd : Fd) : Output × Statics × Fd :=
  -- Move any data left over from a previous read to the start of the buffer
  let buffer :=
    if s.leftover ≠ 0 then store s.buffer 0 ((s.buffer.drop s.leftover).take s.leftoverlen)
    else s.buffer
  let r := read fd (s.buffersize - s.leftoverlen)
  let buffer := store buffer s.leftoverlen r.1
  let length := r.1.length + s.leftoverlen
  if length = 0 then (⟨none, 0⟩, ⟨s.buffersize, 0, 0, buffer⟩, r.2)
  else
    -- Continue buffering until all available input is read or there's no room left
    let g := growLoop s.buffersize buffer length r.2.pending r.2.sched
    let buffersize := g.1
    let length := g.2.2.1
    let buffer := store g.2.1 length [0]
    -- Input should be issued one line at a time and should end with a newline.
    match memrchr buffer 10 length with
    | some lastline =>
      if lastline = length - 1 then
        -- If the buffer ends in a newline, process the whole string
        (⟨some buffer, length - 0⟩, ⟨buffersize, 0, 0, buffer⟩, g.2.2.2)
      else
        -- Otherwise, chop off the last line but process everything else
        let buffer := store buffer lastline [0]
        let leftover := lastline + 1
        let leftoverlen := length - leftover
        (⟨some buffer, leftover - 1⟩, ⟨buffersize, leftover, leftoverlen, buffer⟩, g.2.2.2)
    | none =>
      -- If a newline wasn't found at all, process the whole buffer next time
      if length = MAX_BUFFER then
        -- Unless the buffer is completely full, in which case discard it
        (⟨none, 0⟩, ⟨buffersize, 0, 0, buffer⟩, g.2.2.2)
      else (⟨none, 0⟩, ⟨buffersize, 0, length, buffer⟩, g.2.2.2)

/-- The text block of an output: the `ret` bytes that `*input` points at, or
none when `*input` is null. -/
def Output.block (o : Output) : Option (List Nat) :=
  o.input.map (fun buf => buf.take o.ret)

/-- The text of an output as a C string: the bytes before the first zero. -/
def Output.cstr (o : Output) : Option (List Nat) :=
  o.input.map (fun buf => buf.takeWhile (fun b => b != 0))

/-- The carryover held by the statics: the `leftoverlen` bytes at offset
`leftover` of the buffer. -/
def carry (s : Statics) : List Nat :=
  (s.buffer.drop s.leftover).take s.leftoverlen

/-- The bytes that the reads between two states of a handle returned. -/
def delivered (before after : Fd) : List Nat :=
  before.pending.take (before.pending.length - after.pending.length)

/-- Successive calls of `readlines` on one channel, `n` of them: the result of
each call in order, then the statics and the handle at the end. -/
def readCalls : Nat → Statics → Fd → List (Output × Statics × Fd) × Statics × Fd
  | 0, s, fd => ([], s, fd)
  | n + 1, s, fd =>
    let r := readlines s fd
    let rest := readCalls n r.2.1 r.2.2
    (r :: rest.1, rest.2)

/-- The blocks emitted by a sequence of calls, in order. -/
def emittedBlocks (rs : List (Output × Statics × Fd)) : List (List Nat) :=
  rs.filterMap (fun r => r.1.block)

/-- The block emitted by a call, completed by the newline that the call
replaced with the terminator when it kept a remainder (`leftover` nonzero). -/
def completedBlock (r : Output × Statics × Fd) : List Nat :=
  match r.1.block with
  | none => []
  | some b => if r.2.1.leftover ≠ 0 then b ++ [10] else b

/-- Split a stream at its newlines: `cur` is the line gathered so far.  A final
fragment without newline is not a line. -/
def linesFrom : List Nat → List Nat → List (List Nat)
  | _, [] => []
  | cur, b :: bs =>
    if b = 10 then (cur ++ [10]) :: linesFrom [] bs else linesFrom (cur ++ [b]) bs

/-- The newline-terminated lines of a stream, in order. -/
def terminatedLines (stream : List Nat) : List (List Nat) :=
  linesFrom [] stream

/-- Well-formed statics: the carryover lies inside the written part of the
buffer and inside the capacity, and the capacity is one of the values
`4095 + 4096 * k` up to `MAX_BUFFER`. -/
def Statics.wf (s : Statics) : Prop :=
  s.leftover + s.leftoverlen ≤ s.buffer.length ∧ s.leftoverlen ≤ s.buffersize
    ∧ s.buffersize ≤ MAX_BUFFER ∧ 4096 ∣ MAX_BUFFER - s.buffersize

instance (s : Statics) : Decidable s.wf := by
  unfold Statics.wf
  infer_instance

/-- The part of `acc` up to and including its last newline; empty when `acc`
has no newline. -/
def uptoLastNewline : List Nat → List Nat
  | [] => []
  | b :: bs => if 10 ∈ b :: bs then b :: uptoLastNewline bs else []

/-- A block is whole when it is empty or ends with a newline. -/
def wholeLines (b : List Nat) : Prop :=
  b = [] ∨ b.getLast? = some 10

instance (b : List Nat) : Decidable (wholeLines b) := by
  unfold wholeLines
  infer_instance

/-! ## `devnode.c`: device nodes -/

/-- The base path of the device directories (the value outside `OS_MAC`). -/
def devpath : String := "/dev/input/ckb"

/-- The call `snprintf(buf, size, ...)`: at most `size - 1` characters of the
formatted text are kept. -/
def snprintf (size : Nat) (text : String) : String :=
  String.mk (text.data.take (size - 1))

/-- A path as the filesystem resolves it: the directory part before the last
`/` and the name after it. -/
def splitPath (p : String) : String × String :=
  (String.mk ((p.data.reverse.dropWhile (fun c => c != '/')).tail.reverse),
    String.mk (p.data.reverse.takeWhile (fun c => c != '/')).reverse)

/-- What the device-node code takes from parts of the daemon that are not
among the sources: the constants `DEV_MAX` and `CKB_VERSION_STR`, the macro
`IS_CONNECTED`, the permission macros, the helpers `vendor_str` and
`product_str`, the global `gid` and the result of `getpid()`. -/
structure Env where
  DEV_MAX : Nat
  IS_CONNECTED : usbdevice → Bool
  S_READDIR : Nat
  S_READ : Nat
  S_CUSTOM_R : Nat
  S_READWRITE : Nat
  S_CUSTOM : Nat
  CKB_VERSION_STR : String
  vendor_str : Nat → String
  product_str : Nat → String
  gid : Int
  pid : Nat

/-- The macro `S_GID_READ`. -/
def S_GID_READ (env : Env) : Nat :=
  if env.gid ≥ 0 then env.S_CUSTOM_R else env.S_READ

/-- A filesystem node with its permission bits and owning group: a regular
file with its text, a FIFO, or a directory with its entries by name. -/
inductive Node where
  | file (mode : Nat) (group : Int) (content : String)
  | fifo (mode : Nat) (group : Int)
  | dir (mode : Nat) (group : Int) (entries : List (String × Node))
deriving Repr

/-- The entries of a directory.  The filesystem itself is such a list, keyed by
the full path of each device directory; a node inside a device directory is
addressed by the directory path and its name, the two parts that the code joins
with `/`. -/
abbrev Dir := List (String × Node)

/-- The operating-system state seen by the code: the filesystem and the next
descriptor that `open` returns. -/
structure Sys where
  fs : Dir
  nextfd : Nat

/-- The effect of `chmod` on a node. -/
def Node.chmod : Node → Nat → Node
  | .file _ g c, m => .file m g c
  | .fifo _ g, m => .fifo m g
  | .dir _ g es, m => .dir m g es

/-- The effect of `chown(path, 0, gid)` on a node. -/
def Node.chown : Node → Int → Node
  | .file m _ c, g => .file m g c
  | .fifo m _, g => .fifo m g
  | .dir m _ es, g => .dir m g es

/-- Put node `n` under `name`, replacing an entry of that name. -/
def setEntry (d : Dir) (name : String) (n : Node) : Dir :=
  if (d.lookup name).isSome then d.map (fun e => if e.1 = name then (name, n) else e)
  else d ++ [(name, n)]

/-- Apply `f` to the node under `name`. -/
def modEntry (d : Dir) (name : String) (f : Node → Node) : Dir :=
  d.map (fun e => if e.1 = name then (e.1, f e.2) else e)

/-- Drop the entry under `name`. -/
def delEntry (d : Dir) (name : String) : Dir :=
  d.filter (fun e => e.1 != name)

/-- Apply `f` to the entries of the directory at `path`. -/
def inDir (fs : Dir) (path : String) (f : Dir → Dir) : Dir :=
  modEntry fs path (fun n =>
    match n with
    | .dir m g es => .dir m g (f es)
    | other => other)

/-- The node `path/name`, if any. -/
def nodeAt (fs : Dir) (path name : String) : Option Node :=
  match fs.lookup path with
  | some (.dir _ _ es) => es.lookup name
  | _ => none

mutual
/-- The function `rm_recursive` on the node at its path: what is left of the
node, none when it is removed.  A node that is not a directory is removed; a
directory is removed once all its entries are. -/
def rmNode : Node → Option Node
  | .file _ _ _ => none
  | .fifo _ _ => none
  | .dir m g es =>
    match rmEntries es with
    | [] => none
    | left => some (.dir m g left)
/-- The `readdir` loop of `rm_recursive`, which stops at the first entry that
cannot be removed. -/
def rmEntries : List (String × Node) → List (String × Node)
  | [] => []
  | (name, n) :: rest =>
    match rmNode n with
    | none => rmEntries rest
    | some n' => (name, n') :: rest
end

/-- The function `rm_recursive(path)` on a device directory: status, whether
`errno` is `ENOENT`, and the filesystem afterwards. -/
def rm_recursive (fs : Dir) (path : String) : Int × Bool × Dir :=
  match fs.lookup path with
  | none => (-1, true, fs)
  | some n =>
    match rmNode n with
    | none => (0, false, delEntry fs path)
    | some n' => (-1, false, setEntry fs path n')

/-- The call `mkdir(path, mode)`; none when the path exists.  Here and in
`mkfifo` the permission bits are stored as given (a process umask of 0) and a
new node belongs to group 0. -/
def mkdir (fs : Dir) (path : String) (mode : Nat) : Option Dir :=
  if (fs.lookup path).isSome then none else some (fs ++ [(path, .dir mode 0 [])])

/-- The call `mkfifo(path/name, mode)`; none when the directory is missing or
the name exists. -/
def mkfifo (fs : Dir) (path name : String) (mode : Nat) : Option Dir :=
  match fs.lookup path with
  | some (.dir _ _ es) =>
    if (es.lookup name).isSome then none
    else some (inDir fs path (fun d => d ++ [(name, .fifo mode 0)]))
  | _ => none

/-- The sequence `fopen(path/name, "w")`, writes of `text`, `fclose`; none when
`fopen` fails: the directory is missing or the name is not a regular file.  A
new file gets the bits 0666 and group 0; an existing file keeps its bits and
group and is truncated. -/
def writeFile (fs : Dir) (path name text : String) : Option Dir :=
  match fs.lookup path with
  | some (.dir _ _ es) =>
    match es.lookup name with
    | none => some (inDir fs path (fun d => d ++ [(name, .file 0o666 0 text)]))
    | some (.file m g _) => some (inDir fs path (fun d => setEntry d name (.file m g text)))
    | some _ => none
  | _ => none

/-- The calls `chmod(path/name, mode)` and, when `gid >= 0`,
`chown(path/name, 0, gid)`. -/
def chmodChown (env : Env) (fs : Dir) (path name : String) (mode : Nat) (chownName : String) :
    Dir :=
  let fs := inDir fs path (fun d => modEntry d name (fun n => n.chmod mode))
  if env.gid ≥ 0 then inDir fs path (fun d => modEntry d chownName (fun n => n.chown env.gid))
  else fs

/-- The line that `updateconnected` prints for slot `i`. -/
def connectedLine (i : Nat) (kb : usbdevice) : String :=
  devpath ++ toString i ++ " " ++ kb.serial ++ " " ++ kb.name ++ "\n"

/-- One turn of the slot loop of `updateconnected`: the flag `written` and the
text printed so far. -/
def connectedStep (env : Env) (keyboard : Nat → usbdevice) (acc : Bool × String) (i : Nat) :
    Bool × String :=
  if env.IS_CONNECTED (keyboard i) then (true, acc.2 ++ connectedLine i (keyboard i)) else acc

/-- The text that `updateconnected` prints between `fopen` and `fclose`. -/
def connectedText (env : Env) (keyboard : Nat → usbdevice) : String :=
  let r := (List.range' 1 (env.DEV_MAX - 1)).foldl (connectedStep env keyboard) (false, "")
  if r.1 = false then r.2 ++ "\n" else r.2

/-- The function `updateconnected()`. -/
def updateconnected (env : Env) (keyboard : Nat → usbdevice) (fs : Dir) : Dir :=
  let cpath := splitPath (snprintf (devpath.length + 12) (devpath ++ "0/connected"))
  match writeFile fs cpath.1 cpath.2 (connectedText env keyboard) with
  | none => fs
  | some fs1 => chmodChown env fs1 cpath.1 cpath.2 (S_GID_READ env) cpath.2

/-- The text that `mkdevpath` prints into the features file. -/
def featuresText (env : Env) (kb : usbdevice) : String :=
  let t := env.vendor_str kb.vendor ++ " " ++ env.product_str kb.product
  let t := if HAS_FEATURES kb FEAT_RGB then t ++ " rgb" else t
  let t := if HAS_FEATURES kb FEAT_POLLRATE then t ++ " pollrate" else t
  let t := if HAS_FEATURES kb FEAT_BIND then t ++ " bind" else t
  let t := if HAS_FEATURES kb FEAT_NOTIFY then t ++ " notify" else t
  let t := if HAS_FEATURES kb FEAT_FWVERSION then t ++ " fwversion" else t
  let t := if HAS_FEATURES kb FEAT_FWUPDATE then t ++ " fwupdate" else t
  t ++ "\n"

/-- One lowercase hexadecimal digit. -/
def hexDigit (d : Nat) : Char :=
  if d < 10 then Char.ofNat (48 + d) else Char.ofNat (87 + d)

/-- The conversion `%04x` of an unsigned short. -/
def hex4 (v : Nat) : String :=
  String.mk [hexDigit (v / 4096 % 16), hexDigit (v / 256 % 16), hexDigit (v / 16 % 16),
    hexDigit (v % 16)]

/-- A write of `text` to the file at `p` as the code does for its metadata
files: on success `chmod` and `chown`, on failure `remove`.  `chownName` is the
name passed to `chown`.  The result tells whether `fopen` succeeded. -/
def publish (env : Env) (fs : Dir) (p : String × String) (text : String) (mode : Nat)
    (chownName : String) : Bool × Dir :=
  match writeFile fs p.1 p.2 text with
  | some fs1 => (true, chmodChown env fs1 p.1 p.2 mode chownName)
  | none => (false, inDir fs p.1 (fun d => delEntry d p.2))

/-- The function `mkfwnode(kb)`. -/
def mkfwnode (env : Env) (index : Nat) (kb : usbdevice) (fs : Dir) : Int × Dir :=
  let fwpath := splitPath (snprintf (devpath.length + 12)
    (devpath ++ toString index ++ "/fwversion"))
  let fw := publish env fs fwpath (hex4 kb.fwversion ++ "\n") (S_GID_READ env) fwpath.2
  if fw.1 = false then (-1, fw.2)
  else
    let ppath := splitPath (snprintf (devpath.length + 11)
      (devpath ++ toString index ++ "/pollrate"))
    let pr := publish env fw.2 ppath
      (toString (Int.tdiv kb.pollrate 1000000) ++ " ms" ++ "\n") (S_GID_READ env) ppath.2
    if pr.1 = false then (-2, pr.2) else (0, pr.2)

/-- The function `mknotifynode(kb, notify)`. -/
def mknotifynode (env : Env) (index : Nat) (kb : usbdevice) (notify : Int) (sys : Sys) :
    Int × usbdevice × Sys :=
  if notify < 0 ∨ notify ≥ OUTFIFO_MAX then (-1, kb, sys)
  else if kb.outfifo.getD notify.toNat 0 ≠ 0 then (0, kb, sys)
  else
    -- Create the notification node
    let outpath := splitPath (snprintf (devpath.length + 10)
      (devpath ++ toString index ++ "/notify" ++ toString notify))
    let path := outpath.1
    let name := outpath.2
    match mkfifo sys.fs path name (S_GID_READ env) with
    | none =>
      (-1, { kb with outfifo := kb.outfifo.set notify.toNat 0 },
        { sys with fs := inDir sys.fs path (fun d => delEntry d name) })
    | some fs1 =>
      if sys.nextfd ≤ 0 then
        (-1, { kb with outfifo := kb.outfifo.set notify.toNat 0 },
          ⟨inDir fs1 path (fun d => delEntry d name), sys.nextfd + 1⟩)
      else
        (0, { kb with outfifo := kb.outfifo.set notify.toNat sys.nextfd },
          ⟨if env.gid ≥ 0 then inDir fs1 path (fun d => modEntry d name (fun n => n.chown env.gid))
            else fs1, sys.nextfd + 1⟩)

/-- The function `mkdevpath(kb)` for the record `kb` of slot `index`. -/
def mkdevpath (env : Env) (keyboard : Nat → usbdevice) (index : Nat) (kb : usbdevice)
    (sys : Sys) : Int × usbdevice × Sys :=
  -- Create the control path
  let sizeofPath := devpath.length + 2
  let path := snprintf sizeofPath (devpath ++ toString index)
  let rm := rm_recursive sys.fs path
  if rm.1 ≠ 0 ∧ rm.2.1 = false then (-1, kb, { sys with fs := rm.2.2 })
  else
    match mkdir rm.2.2 path env.S_READDIR with
    | none => (-1, kb, { sys with fs := (rm_recursive rm.2.2 path).2.2 })
    | some fs =>
      let fs := if env.gid ≥ 0 then modEntry fs path (fun n => n.chown env.gid) else fs
      if index = 0 then
        -- Root keyboard: write a list of devices
        let fs := updateconnected env keyboard fs
        -- Write version number
        let vpath := splitPath (snprintf (sizeofPath + 8) (path ++ "/version"))
        let fs := (publish env fs vpath (env.CKB_VERSION_STR ++ "\n") (S_GID_READ env) vpath.2).2
        -- Write PID
        let ppath := splitPath (snprintf (sizeofPath + 4) (path ++ "/pid"))
        let fs := (publish env fs ppath (toString env.pid ++ "\n") env.S_READ vpath.2).2
        (0, kb, { sys with fs := fs })
      else
        -- Create command FIFO
        let inpath := splitPath (snprintf (sizeofPath + 4) (path ++ "/cmd"))
        match mkfifo fs inpath.1 inpath.2
          (if env.gid ≥ 0 then env.S_CUSTOM else env.S_READWRITE) with
        | none => (-1, { kb with infifo := 0 }, { sys with fs := (rm_recursive fs path).2.2 })
        | some fs =>
          if sys.nextfd ≤ 0 then
            (-1, { kb with infifo := 0 }, ⟨(rm_recursive fs path).2.2, sys.nextfd + 1⟩)
          else
            let kb := { kb with infifo := sys.nextfd }
            let fs := if env.gid ≥ 0 then
              inDir fs inpath.1 (fun d => modEntry d inpath.2 (fun n => n.chown env.gid)) else fs
            -- Create notification FIFO
            let nt := mknotifynode env index kb 0 ⟨fs, sys.nextfd + 1⟩
            let kb := nt.2.1
            -- Write the model and serial to files
            let mpath := splitPath (snprintf (sizeofPath + 6) (path ++ "/model"))
            let spath := splitPath (snprintf (sizeofPath + 7) (path ++ "/serial"))
            let fs := (publish env nt.2.2.fs mpath (kb.name ++ "\n") (S_GID_READ env) mpath.2).2
            let fs := (publish env fs spath (kb.serial ++ "\n") (S_GID_READ env) spath.2).2
            -- Write the keyboard's features
            let fpath := splitPath (snprintf (sizeofPath + 9) (path ++ "/features"))
            let fs := (publish env fs fpath (featuresText env kb) (S_GID_READ env) fpath.2).2
            -- Write firmware version and poll rate
            let fw := mkfwnode env index kb fs
            (0, kb, ⟨fw.2, nt.2.2.nextfd⟩)

/-- The capability tokens of a device, in the order `rgb`, `pollrate`, `bind`,
`notify`, `fwversion`, `fwupdate`: the tokens whose bit is set in the
capability bitmask. -/
def capabilityTokens (kb : usbdevice) : List String :=
  [(FEAT_RGB, "rgb"), (FEAT_POLLRATE, "pollrate"), (FEAT_BIND, "bind"), (FEAT_NOTIFY, "notify"),
    (FEAT_FWVERSION, "fwversion"), (FEAT_FWUPDATE, "fwupdate")].filterMap
    (fun p => if HAS_FEATURES kb p.1 then some p.2 else none)

/-- The connected slots in ascending order: the indices `i` with
`1 <= i < DEV_MAX` whose record is connected. -/
def connectedSlots (env : Env) (keyboard : Nat → usbdevice) : List Nat :=
  (List.range env.DEV_MAX).filter (fun i => decide (1 ≤ i) && env.IS_CONNECTED (keyboard i))

/-- The listing of the connected slots: one line per slot, or a single newline
when there is none. -/
def listingText (env : Env) (keyboard : Nat → usbdevice) : String :=
  if connectedSlots env keyboard = [] then "\n"
  else String.join ((connectedSlots env keyboard).map (fun i => connectedLine i (keyboard i)))

/-- The group of a node after the `chown` that the code issues when `gid >= 0`;
a node is created with group 0. -/
def ownedGroup (env : Env) : Int :=
  if env.gid ≥ 0 then env.gid else 0

/-- The directory of the root slot as `mkdevpath` leaves it. -/
def rootTree (env : Env) (keyboard : Nat → usbdevice) : Node :=
  .dir env.S_READDIR (ownedGroup env)
    [("connected", .file (S_GID_READ env) (ownedGroup env) (connectedText env keyboard)),
      ("version", .file (S_GID_READ env) (ownedGroup env) (env.CKB_VERSION_STR ++ "\n")),
      ("pid", .file env.S_READ 0 (toString env.pid ++ "\n"))]

/-- The directory of a hardware slot as `mkdevpath` leaves it, with or without
the node of notification channel 0. -/
def hwTree (env : Env) (kb : usbdevice) (notify : Bool) : Node :=
  .dir env.S_READDIR (ownedGroup env)
    ([("cmd", Node.fifo (if env.gid ≥ 0 then env.S_CUSTOM else env.S_READWRITE) (ownedGroup env))]
      ++ (if notify then [("notify0", Node.fifo (S_GID_READ env) (ownedGroup env))] else [])
      ++ [("model", .file (S_GID_READ env) (ownedGroup env) (kb.name ++ "\n")),
        ("serial", .file (S_GID_READ env) (ownedGroup env) (kb.serial ++ "\n")),
        ("features", .file (S_GID_READ env) (ownedGroup env) (featuresText env kb)),
        ("fwversion", .file (S_GID_READ env) (ownedGroup env) (hex4 kb.fwversion ++ "\n")),
        ("pollrate", .file (S_GID_READ env) (ownedGroup env)
          (toString (Int.tdiv kb.pollrate 1000000) ++ " ms" ++ "\n"))])

/-- A sample environment: ten slots, a record counts as connected when it is
active, the usual octal permission bits, no group configured. -/
def sampleEnv : Env :=
  { DEV_MAX := 10, IS_CONNECTED := fun kb => kb.active != 0, S_READDIR := 0o700, S_READ := 0o400,
    S_CUSTOM_R := 0o440, S_READWRITE := 0o600, S_CUSTOM := 0o620,
    CKB_VERSION_STR := "beta-v0.2", vendor_str := fun _ => "corsair",
    product_str := fun _ => "k70", gid := -1, pid := 4242 }

/-- A sample hardware record: all notification channels closed, the
capabilities `rgb` and `bind`. -/
def sampleKb : usbdevice :=
  { profile := ⟨⟨⟨[], [], []⟩⟩, ⟨[], [], []⟩⟩, infifo := 0, outfifo := List.replicate 10 0,
    features := 0x05, active := 1, name := "K70 RGB", serial := "0123", vendor := 0x1b1c,
    product := 0x1b13, fwversion := 0x0130, pollrate := 1000000 }

/-! ## Lemmas on `memcmp` -/

theorem getD_zero_headD (l : List Nat) : l.getD 0 0 = l.headD 0 := by
  cases l <;> rfl

theorem getD_succ_tail (l : List Nat) (i : Nat) : l.getD (i + 1) 0 = l.tail.getD i 0 := by
  cases l <;> rfl

theorem getD_drop_nat (l : List Nat) (k i : Nat) : (l.drop k).getD i 0 = l.getD (k + i) 0 := by
  simp [List.getD_eq_getElem?_getD, List.getElem?_drop]

theorem memcmpOrder_eq_zero_iff (n : Nat) : ∀ (l r : List Nat),
    memcmpOrder l r n = 0 ↔ ∀ i, i < n → l.getD i 0 = r.getD i 0 := by
  induction n with
  | zero => intro l r; simp [memcmpOrder]
  | succ n ih =>
    intro l r
    rw [memcmpOrder]
    by_cases h : l.headD 0 = r.headD 0
    · rw [if_pos h, ih]
      constructor
      · intro H i hi
        cases i with
        | zero => rw [getD_zero_headD, getD_zero_headD]; exact h
        | succ j => rw [getD_succ_tail, getD_succ_tail]; exact H j (by omega)
      · intro H i hi
        have := H (i + 1) (by omega)
        rwa [getD_succ_tail, getD_succ_tail] at this
    · rw [if_neg h]
      constructor
      · intro H
        exfalso
        split at H <;> omega
      · intro H
        exfalso
        apply h
        have := H 0 (by omega)
        rwa [getD_zero_headD, getD_zero_headD] at this

/-- Whatever size the libc chooses, `memcmp` is zero exactly when the ranges
agree. -/
theorem memcmp_eq_zero_iff (size : MemcmpSize) (n : Nat) (l r : List Nat) :
    memcmp size l r n = 0 ↔ ∀ i, i < n → l.getD i 0 = r.getD i 0 := by
  rw [← memcmpOrder_eq_zero_iff]
  unfold memcmp
  constructor
  · intro h
    rcases Int.mul_eq_zero.1 h with h1 | h1
    · exact h1
    · exfalso
      omega
  · intro h
    rw [h, Int.zero_mul]

theorem getD_replicate_zero (n i : Nat) : (List.replicate n 0).getD i 0 = 0 := by
  simp [List.getD_eq_getElem?_getD, List.getElem?_replicate]
  split <;> simp

theorem memcmp_black_iff (size : MemcmpSize) (n : Nat) (l : List Nat) :
    memcmp size l (List.replicate n 0) n = 0 ↔ ∀ i, i < n → l.getD i 0 = 0 := by
  rw [memcmp_eq_zero_iff]
  constructor
  · intro H i hi
    rw [H i hi, getD_replicate_zero]
  · intro H i hi
    rw [H i hi, getD_replicate_zero]

theorem isblack_iff (size : MemcmpSize) (km : Keymap) (l : lighting) :
    isblack size km l = true ↔ zoneBlack km l.r ∧ zoneBlack km l.g ∧ zoneBlack km l.b := by
  simp only [isblack, Bool.and_eq_true, beq_iff_eq, memcmp_black_iff, getD_drop_nat, zoneBlack]
  tauto

theorem rgbcmp_eq_zero_of_same (size : MemcmpSize) (km : Keymap) (lhs rhs : lighting)
    (hr : ∀ i, i < km.N_MOUSE_ZONES →
      lhs.r.getD (km.LED_MOUSE + i) 0 = rhs.r.getD (km.LED_MOUSE + i) 0)
    (hg : ∀ i, i < km.N_MOUSE_ZONES →
      lhs.g.getD (km.LED_MOUSE + i) 0 = rhs.g.getD (km.LED_MOUSE + i) 0)
    (hb : ∀ i, i < km.N_MOUSE_ZONES →
      lhs.b.getD (km.LED_MOUSE + i) 0 = rhs.b.getD (km.LED_MOUSE + i) 0) :
    rgbcmp size km lhs rhs = 0 := by
  have h1 := (memcmp_eq_zero_iff size km.N_MOUSE_ZONES (lhs.r.drop km.LED_MOUSE)
    (rhs.r.drop km.LED_MOUSE)).2 (by intro i hi; rw [getD_drop_nat, getD_drop_nat]; exact hr i hi)
  have h2 := (memcmp_eq_zero_iff size km.N_MOUSE_ZONES (lhs.g.drop km.LED_MOUSE)
    (rhs.g.drop km.LED_MOUSE)).2 (by intro i hi; rw [getD_drop_nat, getD_drop_nat]; exact hg i hi)
  have h3 := (memcmp_eq_zero_iff size km.N_MOUSE_ZONES (lhs.b.drop km.LED_MOUSE)
    (rhs.b.drop km.LED_MOUSE)).2 (by intro i hi; rw [getD_drop_nat, getD_drop_nat]; exact hb i hi)
  unfold rgbcmp
  rw [h1, h2, h3]
  decide

/-! ## Shape of the packets -/

theorem zoneGroups_length (km : Keymap) (nl : lighting) (n : Nat) :
    (zoneGroups km nl n).length = 4 * n := by
  induction n with
  | zero => simp [zoneGroups]
  | succ n ih =>
    unfold zoneGroups at ih ⊢
    rw [List.range_succ, List.map_append, List.flatten_append, List.length_append, ih]
    simp
    omega

theorem set_four (T : List Nat) (a b c d : Nat) (h : 4 ≤ T.length) :
    (((T.set 0 a).set 1 b).set 2 c).set 3 d = [a, b, c, d] ++ T.drop 4 := by
  match T, h with
  | _ :: _ :: _ :: _ :: rest, _ => simp

theorem rgbStep_append (km : Keymap) (nl : lighting) (A T : List Nat) (i : Nat)
    (hA : A.length = 4 + 4 * i) (hT : 4 ≤ T.length) :
    rgbStep km nl (A ++ T) i = A ++ ([(i + 1) % 256, nl.r.getD (km.LED_MOUSE + i) 0,
      nl.g.getD (km.LED_MOUSE + i) 0, nl.b.getD (km.LED_MOUSE + i) 0] ++ T.drop 4) := by
  unfold rgbStep
  rw [← hA]
  rw [List.set_append_right _ _ (by omega), List.set_append_right _ _ (by simp),
    List.set_append_right _ _ (by simp), List.set_append_right _ _ (by simp)]
  simp only [Nat.sub_self, Nat.add_sub_cancel_left]
  rw [set_four _ _ _ _ _ hT]

theorem rgbLoop_fold (km : Keymap) (nl : lighting) (p : List Nat) (n : Nat)
    (h : 4 + 4 * n ≤ p.length) :
    (List.range n).foldl (rgbStep km nl) p
      = p.take 4 ++ zoneGroups km nl n ++ p.drop (4 + 4 * n) := by
  induction n with
  | zero => simp [zoneGroups]
  | succ n ih =>
    rw [List.range_succ, List.foldl_append, ih (by omega)]
    simp only [List.foldl_cons, List.foldl_nil]
    rw [rgbStep_append km nl _ _ n (by simp [zoneGroups_length]; omega) (by simp; omega)]
    rw [List.drop_drop]
    have e : zoneGroups km nl (n + 1) = zoneGroups km nl n ++ [(n + 1) % 256,
        nl.r.getD (km.LED_MOUSE + n) 0, nl.g.getD (km.LED_MOUSE + n) 0,
        nl.b.getD (km.LED_MOUSE + n) 0] := by
      simp [zoneGroups, List.range_succ]
    rw [e]
    have e2 : 4 + (4 + 4 * n) = 4 + 4 * (n + 1) := by omega
    have e3 : 4 + 4 * n + 4 = 4 + 4 * (n + 1) := by omega
    simp [List.append_assoc, e2, e3]

theorem drop_header_replicate (a b c d m k : Nat) :
    List.drop (4 + k) ([a, b, c, d] ++ List.replicate m 0) = List.replicate (m - k) 0 := by
  rw [Nat.add_comm, ← List.drop_drop]
  simp [List.drop_replicate]

theorem rgbLoop_eq (km : Keymap) (nl : lighting) (h : 4 + 4 * km.N_MOUSE_ZONES ≤ MSG_SIZE) :
    rgbLoop km nl data_pkt_init = colourPacket km nl ++ switchPacket 0 := by
  unfold rgbLoop
  unfold MSG_SIZE at h
  rw [rgbLoop_fold km nl _ _ (by simp [data_pkt_init]; omega)]
  unfold colourPacket switchPacket data_pkt_init
  rw [List.drop_append_of_le_length (by simp; omega)]
  rw [drop_header_replicate]
  simp

theorem colourPacket_length (km : Keymap) (nl : lighting)
    (h : 4 + 4 * km.N_MOUSE_ZONES ≤ MSG_SIZE) : (colourPacket km nl).length = MSG_SIZE := by
  unfold MSG_SIZE at *
  show (colourPacket km nl).length = 64
  simp only [colourPacket, List.length_append, zoneGroups_length, List.length_replicate,
    List.length_cons, List.length_nil]
  omega

theorem pktRow_zero (km : Keymap) (nl : lighting) (h : 4 + 4 * km.N_MOUSE_ZONES ≤ MSG_SIZE) :
    pktRow (rgbLoop km nl data_pkt_init) 0 = colourPacket km nl := by
  rw [rgbLoop_eq km nl h]
  unfold pktRow
  simp only [Nat.zero_mul, List.drop_zero]
  rw [List.take_append_of_le_length (by rw [colourPacket_length km nl h])]
  rw [← colourPacket_length km nl h, List.take_length]

theorem pktRow_one_off (km : Keymap) (nl : lighting) (h : 4 + 4 * km.N_MOUSE_ZONES ≤ MSG_SIZE) :
    pktRow (rgbLoop km nl data_pkt_init) 1 = switchPacket 0 := by
  rw [rgbLoop_eq km nl h]
  unfold pktRow
  rw [Nat.one_mul, ← colourPacket_length km nl h, List.drop_left]
  rw [colourPacket_length km nl h]
  simp [switchPacket, MSG_SIZE]

theorem pktRow_one_on (km : Keymap) (nl : lighting) (h : 4 + 4 * km.N_MOUSE_ZONES ≤ MSG_SIZE) :
    pktRow ((rgbLoop km nl data_pkt_init).set (1 * MSG_SIZE + 4) 1) 1 = switchPacket 1 := by
  rw [rgbLoop_eq km nl h]
  unfold pktRow
  rw [Nat.one_mul, ← colourPacket_length km nl h, List.set_append_right _ _ (by omega)]
  rw [List.drop_left]
  rw [colourPacket_length km nl h]
  simp [switchPacket, MSG_SIZE]

/-! ## The lighting encoder -/

/-- C2: whatever size the libc gives to `memcmp` results, a non-forced call
whose last-sent snapshot and active lighting buffer agree on every mouse zone
in all three channels makes no transport call, returns 0 and leaves the device
record, hence the stored snapshot, unchanged. -/
theorem updatergb_mouse_unchanged (size : MemcmpSize) (km : Keymap) (kb : usbdevice) (u : Usb)
    (hactive : kb.active ≠ 0)
    (hr : ∀ i, i < km.N_MOUSE_ZONES → kb.profile.lastlight.r.getD (km.LED_MOUSE + i) 0
      = kb.profile.currentmode.light.r.getD (km.LED_MOUSE + i) 0)
    (hg : ∀ i, i < km.N_MOUSE_ZONES → kb.profile.lastlight.g.getD (km.LED_MOUSE + i) 0
      = kb.profile.currentmode.light.g.getD (km.LED_MOUSE + i) 0)
    (hb : ∀ i, i < km.N_MOUSE_ZONES → kb.profile.lastlight.b.getD (km.LED_MOUSE + i) 0
      = kb.profile.currentmode.light.b.getD (km.LED_MOUSE + i) 0) :
    updatergb_mouse size km kb 0 u = (0, kb, u) := by
  unfold updatergb_mouse
  rw [if_neg hactive]
  simp only [rgbcmp_eq_zero_of_same size km _ _ hr hg hb, and_self, if_true]

theorem updatergb_mouse_unchanged_witness :
    updatergb_mouse byteSize ⟨2, 2⟩
      ⟨⟨⟨⟨[9, 9, 1, 2], [9, 9, 3, 4], [9, 9, 5, 6]⟩⟩, ⟨[0, 0, 1, 2], [0, 0, 3, 4], [0, 0, 5, 6]⟩⟩,
        0, [], 0, 1, "", "", 0, 0, 0, 0⟩ 0 ⟨[], [true, true]⟩
      = (0, ⟨⟨⟨⟨[9, 9, 1, 2], [9, 9, 3, 4], [9, 9, 5, 6]⟩⟩,
          ⟨[0, 0, 1, 2], [0, 0, 3, 4], [0, 0, 5, 6]⟩⟩, 0, [], 0, 1, "", "", 0, 0, 0, 0⟩,
          ⟨[], [true, true]⟩) :=
  updatergb_mouse_unchanged _ _ _ _ (by decide) (by decide) (by decide) (by decide)

/-- Across the black boundary, when `rgbcmp` reports a difference: with the
device active, no forced refresh, room for the zone groups in the packet and
both transport calls succeeding, leaving black sends exactly the colour packet
and then the lighting-on packet, and entering black sends exactly the colour
packet and then the lighting-off packet. -/
theorem updatergb_mouse_boundary_of_difference (size : MemcmpSize) (km : Keymap)
    (kb : usbdevice) (u : Usb) (rest : List Bool) (hactive : kb.active ≠ 0)
    (hroom : 4 + 4 * km.N_MOUSE_ZONES ≤ MSG_SIZE)
    (hok : u.outcomes = true :: true :: rest)
    (hne : rgbcmp size km kb.profile.lastlight kb.profile.currentmode.light ≠ 0) :
    (isblack size km kb.profile.lastlight = true →
      isblack size km kb.profile.currentmode.light = false →
      updatergb_mouse size km kb 0 u
        = (0, { kb with profile := { kb.profile with lastlight := kb.profile.currentmode.light } },
            ⟨u.calls ++ [colourPacket km kb.profile.currentmode.light, switchPacket 1], rest⟩))
    ∧ (isblack size km kb.profile.lastlight = false →
      isblack size km kb.profile.currentmode.light = true →
      updatergb_mouse size km kb 0 u
        = (0, { kb with profile := { kb.profile with lastlight := kb.profile.currentmode.light } },
            ⟨u.calls ++ [colourPacket km kb.profile.currentmode.light, switchPacket 0], rest⟩)) := by
  constructor
  · intro hwas his
    have hon := pktRow_one_on km kb.profile.currentmode.light hroom
    rw [Nat.one_mul] at hon
    unfold updatergb_mouse
    rw [if_neg hactive]
    simp [hne, hwas, his, usbsend, hok, pktRow_zero km _ hroom, hon]
  · intro hwas his
    unfold updatergb_mouse
    rw [if_neg hactive]
    simp [hne, hwas, his, usbsend, hok, pktRow_zero km _ hroom, pktRow_one_off km _ hroom]

/-- C4 (the code at the failing input): the stored and the new lighting are both
non-black and differ in the red and green bytes of the first mouse zone, the
call is not forced and the transport would succeed, yet the encoder returns 0
without any transport call and keeps the stale snapshot, because the `memcmp`
results for red and green cancel in the sum of `rgbcmp`: they are -1 and 1 with
a libc that returns byte differences, -8388608 and 8388608 with one that
returns them 23 bits up. -/
theorem updatergb_mouse_cancelling_diff :
    (isblack byteSize ⟨2, 2⟩ ⟨[0, 0, 1, 5], [0, 0, 2, 5], [0, 0, 0, 5]⟩ = false
    ∧ isblack byteSize ⟨2, 2⟩ ⟨[0, 0, 2, 5], [0, 0, 1, 5], [0, 0, 0, 5]⟩ = false
    ∧ memcmp byteSize [1, 5] [2, 5] 2 = -1 ∧ memcmp byteSize [2, 5] [1, 5] 2 = 1
    ∧ rgbcmp byteSize ⟨2, 2⟩ ⟨[0, 0, 1, 5], [0, 0, 2, 5], [0, 0, 0, 5]⟩
        ⟨[0, 0, 2, 5], [0, 0, 1, 5], [0, 0, 0, 5]⟩ = 0
    ∧ updatergb_mouse byteSize ⟨2, 2⟩
        ⟨⟨⟨⟨[0, 0, 2, 5], [0, 0, 1, 5], [0, 0, 0, 5]⟩⟩,
          ⟨[0, 0, 1, 5], [0, 0, 2, 5], [0, 0, 0, 5]⟩⟩, 0, [], 0, 1, "", "", 0, 0, 0, 0⟩
        0 ⟨[], [true, true]⟩
      = (0, ⟨⟨⟨⟨[0, 0, 2, 5], [0, 0, 1, 5], [0, 0, 0, 5]⟩⟩,
          ⟨[0, 0, 1, 5], [0, 0, 2, 5], [0, 0, 0, 5]⟩⟩, 0, [], 0, 1, "", "", 0, 0, 0, 0⟩,
          ⟨[], [true, true]⟩))
    ∧ (isblack wideSize ⟨2, 2⟩ ⟨[0, 0, 1, 5], [0, 0, 2, 5], [0, 0, 0, 5]⟩ = false
    ∧ isblack wideSize ⟨2, 2⟩ ⟨[0, 0, 2, 5], [0, 0, 1, 5], [0, 0, 0, 5]⟩ = false
    ∧ memcmp wideSize [1, 5] [2, 5] 2 = -8388608 ∧ memcmp wideSize [2, 5] [1, 5] 2 = 8388608
    ∧ rgbcmp wideSize ⟨2, 2⟩ ⟨[0, 0, 1, 5], [0, 0, 2, 5], [0, 0, 0, 5]⟩
        ⟨[0, 0, 2, 5], [0, 0, 1, 5], [0, 0, 0, 5]⟩ = 0
    ∧ updatergb_mouse wideSize ⟨2, 2⟩
        ⟨⟨⟨⟨[0, 0, 2, 5], [0, 0, 1, 5], [0, 0, 0, 5]⟩⟩,
          ⟨[0, 0, 1, 5], [0, 0, 2, 5], [0, 0, 0, 5]⟩⟩, 0, [], 0, 1, "", "", 0, 0, 0, 0⟩
        0 ⟨[], [true, true]⟩
      = (0, ⟨⟨⟨⟨[0, 0, 2, 5], [0, 0, 1, 5], [0, 0, 0, 5]⟩⟩,
          ⟨[0, 0, 1, 5], [0, 0, 2, 5], [0, 0, 0, 5]⟩⟩, 0, [], 0, 1, "", "", 0, 0, 0, 0⟩,
          ⟨[], [true, true]⟩)) := by
  refine ⟨⟨by decide, by decide, by decide, by decide, by decide, by decide⟩,
    ⟨by decide, by decide, by decide, by decide, by decide, by decide⟩⟩

theorem updatergb_mouse_starts (size : MemcmpSize) (km : Keymap) (kb : usbdevice)
    (force : Int) (u : Usb)
    (hactive : kb.active ≠ 0)
    (hroom : 4 + 4 * km.N_MOUSE_ZONES ≤ MSG_SIZE)
    (hcond : ¬ (force = 0 ∧ rgbcmp size km kb.profile.lastlight kb.profile.currentmode.light = 0)) :
    ∃ more, more.length ≤ 1 ∧ (updatergb_mouse size km kb force u).2.2.calls
      = u.calls ++ colourPacket km kb.profile.currentmode.light :: more := by
  unfold updatergb_mouse
  rw [if_neg hactive, if_neg hcond]
  simp only [pktRow_zero km _ hroom]
  generalize pktRow (rgbLoop km kb.profile.currentmode.light data_pkt_init) 1 = p1
  generalize pktRow ((rgbLoop km kb.profile.currentmode.light data_pkt_init).set
    (1 * MSG_SIZE + 4) 1) 1 = p2
  generalize colourPacket km kb.profile.currentmode.light = p0
  rcases hu : u.outcomes with _ | ⟨b1, _ | ⟨b2, rest⟩⟩ <;>
    cases hb : isblack size km kb.profile.currentmode.light <;>
    cases hw : isblack size km kb.profile.lastlight <;>
    by_cases hf : force = 0 <;>
    (try cases b1) <;> (try cases b2) <;>
    simp [usbsend, hu, hf]

theorem updatergb_mouse_failed (size : MemcmpSize) (km : Keymap) (kb : usbdevice)
    (force : Int) (u : Usb)
    (hactive : kb.active ≠ 0)
    (hcond : ¬ (force = 0 ∧ rgbcmp size km kb.profile.lastlight kb.profile.currentmode.light = 0))
    (hfail : false ∈ callResults u
      ((updatergb_mouse size km kb force u).2.2.calls.length - u.calls.length)) :
    (updatergb_mouse size km kb force u).1 = -1 ∧ (updatergb_mouse size km kb force u).2.1 = kb := by
  revert hfail
  unfold updatergb_mouse
  rw [if_neg hactive, if_neg hcond]
  generalize pktRow (rgbLoop km kb.profile.currentmode.light data_pkt_init) 1 = p1
  generalize pktRow ((rgbLoop km kb.profile.currentmode.light data_pkt_init).set
    (1 * MSG_SIZE + 4) 1) 1 = p2
  generalize pktRow (rgbLoop km kb.profile.currentmode.light data_pkt_init) 0 = p0
  rcases hu : u.outcomes with _ | ⟨b1, _ | ⟨b2, rest⟩⟩ <;>
    cases hb : isblack size km kb.profile.currentmode.light <;>
    cases hw : isblack size km kb.profile.lastlight <;>
    by_cases hf : force = 0 <;>
    (try cases b1) <;> (try cases b2) <;>
    simp [usbsend, hu, hf, callResults, List.range_succ]

theorem updatergb_mouse_succeeded (size : MemcmpSize) (km : Keymap) (kb : usbdevice)
    (force : Int) (u : Usb)
    (hactive : kb.active ≠ 0)
    (hcond : ¬ (force = 0 ∧ rgbcmp size km kb.profile.lastlight kb.profile.currentmode.light = 0))
    (hall : ∀ b, b ∈ callResults u
      ((updatergb_mouse size km kb force u).2.2.calls.length - u.calls.length) → b = true) :
    (updatergb_mouse size km kb force u).1 = 0
      ∧ (updatergb_mouse size km kb force u).2.1.profile.lastlight = kb.profile.currentmode.light
      ∧ (updatergb_mouse size km kb force u).2.1.profile.currentmode = kb.profile.currentmode := by
  revert hall
  unfold updatergb_mouse
  rw [if_neg hactive, if_neg hcond]
  generalize pktRow (rgbLoop km kb.profile.currentmode.light data_pkt_init) 1 = p1
  generalize pktRow ((rgbLoop km kb.profile.currentmode.light data_pkt_init).set
    (1 * MSG_SIZE + 4) 1) 1 = p2
  generalize pktRow (rgbLoop km kb.profile.currentmode.light data_pkt_init) 0 = p0
  rcases hu : u.outcomes with _ | ⟨b1, _ | ⟨b2, rest⟩⟩ <;>
    cases hb : isblack size km kb.profile.currentmode.light <;>
    cases hw : isblack size km kb.profile.lastlight <;>
    by_cases hf : force = 0 <;>
    (try cases b1) <;> (try cases b2) <;>
    simp [usbsend, hu, hf, callResults, List.range_succ]

/-- C5: when the device is active and the call proceeds to transmit (forced, or
`rgbcmp` reports a difference), the first packet handed to the transport is the
colour packet and one or two calls are made.  If one of these calls fails the
result is -1 and the device record, hence the stored snapshot, is unchanged, so
a repeated call again starts with the colour packet; if all of them succeed the
result is 0 and the stored snapshot equals the active mode's lighting. -/
theorem updatergb_mouse_commit (size : MemcmpSize) (km : Keymap) (kb : usbdevice)
    (force : Int) (u : Usb)
    (hactive : kb.active ≠ 0)
    (hroom : 4 + 4 * km.N_MOUSE_ZONES ≤ MSG_SIZE)
    (hgo : force ≠ 0 ∨ rgbcmp size km kb.profile.lastlight kb.profile.currentmode.light ≠ 0) :
    (∃ more, more.length ≤ 1 ∧ (updatergb_mouse size km kb force u).2.2.calls
        = u.calls ++ colourPacket km kb.profile.currentmode.light :: more)
    ∧ (false ∈ callResults u
          ((updatergb_mouse size km kb force u).2.2.calls.length - u.calls.length) →
        (updatergb_mouse size km kb force u).1 = -1
        ∧ (updatergb_mouse size km kb force u).2.1 = kb
        ∧ ∀ u2 : Usb, ∃ more,
            (updatergb_mouse size km (updatergb_mouse size km kb force u).2.1 force u2).2.2.calls
              = u2.calls ++ colourPacket km kb.profile.currentmode.light :: more)
    ∧ ((∀ b, b ∈ callResults u
          ((updatergb_mouse size km kb force u).2.2.calls.length - u.calls.length) → b = true) →
        (updatergb_mouse size km kb force u).1 = 0
        ∧ (updatergb_mouse size km kb force u).2.1.profile.lastlight = kb.profile.currentmode.light
        ∧ (updatergb_mouse size km kb force u).2.1.profile.currentmode = kb.profile.currentmode) := by
  have hcond : ¬ (force = 0 ∧ rgbcmp size km kb.profile.lastlight kb.profile.currentmode.light = 0) := by
    intro h
    rcases hgo with h1 | h1
    · exact h1 h.1
    · exact h1 h.2
  refine ⟨updatergb_mouse_starts size km kb force u hactive hroom hcond, ?_,
    updatergb_mouse_succeeded size km kb force u hactive hcond⟩
  intro hfail
  have hres := updatergb_mouse_failed size km kb force u hactive hcond hfail
  refine ⟨hres.1, hres.2, ?_⟩
  intro u2
  rw [hres.2]
  obtain ⟨more, _, h⟩ := updatergb_mouse_starts size km kb force u2 hactive hroom hcond
  exact ⟨more, h⟩

theorem updatergb_mouse_commit_witness :
    (updatergb_mouse byteSize ⟨2, 2⟩
      ⟨⟨⟨⟨[9, 9, 1, 2], [9, 9, 3, 4], [9, 9, 5, 6]⟩⟩, ⟨[7, 7, 0, 0], [7, 7, 0, 0], [7, 7, 0, 0]⟩⟩,
        0, [], 0, 1, "", "", 0, 0, 0, 0⟩ 0 ⟨[], [true, false]⟩).1 = -1 :=
  ((updatergb_mouse_commit byteSize ⟨2, 2⟩
      ⟨⟨⟨⟨[9, 9, 1, 2], [9, 9, 3, 4], [9, 9, 5, 6]⟩⟩, ⟨[7, 7, 0, 0], [7, 7, 0, 0], [7, 7, 0, 0]⟩⟩,
        0, [], 0, 1, "", "", 0, 0, 0, 0⟩ 0 ⟨[], [true, false]⟩
      (by decide) (by decide) (Or.inr (by decide))).2.1 (by decide)).1

/-! ## Lemmas for the command-channel reader -/

theorem store_take (buf data : List Nat) (off : Nat) (h : off ≤ buf.length) :
    (store buf off data).take (off + data.length) = buf.take off ++ data := by
  unfold store
  have hl : (buf.take off ++ data).length = off + data.length := by
    simp [List.length_take, Nat.min_eq_left h]
  rw [← hl, List.take_left]

theorem store_length (buf data : List Nat) (off : Nat) (h : off ≤ buf.length) :
    off + data.length ≤ (store buf off data).length := by
  unfold store
  simp [List.length_take, Nat.min_eq_left h]

theorem store_take_le (buf data : List Nat) (off k : Nat) (h : off ≤ buf.length) (hk : k ≤ off) :
    (store buf off data).take k = buf.take k := by
  unfold store
  rw [List.append_assoc, List.take_append_of_le_length (by simp [List.length_take]; omega)]
  rw [List.take_take, Nat.min_eq_left hk]

theorem store_getD (buf : List Nat) (off v : Nat) (h : off ≤ buf.length) :
    (store buf off [v]).getD off 0 = v := by
  unfold store
  have hl : (buf.take off).length = off := by simp [List.length_take, Nat.min_eq_left h]
  rw [List.append_assoc, List.getD_eq_getElem?_getD, List.getElem?_append_right (by omega), hl]
  simp

theorem memrchr_none (buf : List Nat) (c n : Nat) :
    memrchr buf c n = none ↔ ∀ i, i < n → buf.getD i 0 ≠ c := by
  induction n with
  | zero => simp [memrchr]
  | succ n ih =>
    rw [memrchr]
    split
    · next h =>
      simp only [false_iff, reduceCtorEq]
      intro H
      exact H n (by omega) h
    · next h =>
      rw [ih]
      constructor
      · intro H i hi
        by_cases e : i = n
        · subst e; exact h
        · exact H i (by omega)
      · intro H i hi
        exact H i (by omega)

theorem memrchr_some (buf : List Nat) (c n i : Nat) (h : memrchr buf c n = some i) :
    i < n ∧ buf.getD i 0 = c ∧ ∀ j, i < j → j < n → buf.getD j 0 ≠ c := by
  induction n with
  | zero => simp [memrchr] at h
  | succ n ih =>
    rw [memrchr] at h
    split at h
    · next hc =>
      injection h with h
      subst h
      exact ⟨by omega, hc, fun j h1 h2 => by omega⟩
    · next hc =>
      obtain ⟨h1, h2, h3⟩ := ih h
      refine ⟨by omega, h2, ?_⟩
      intro j hj hjn
      by_cases e : j = n
      · subst e; exact hc
      · exact h3 j hj (by omega)

theorem getD_take_lt (buf : List Nat) (n i : Nat) (h : i < n) :
    (buf.take n).getD i 0 = buf.getD i 0 := by
  simp [List.getD_eq_getElem?_getD, List.getElem?_take, h]

theorem getD_ne_of_not_mem (l : List Nat) (i : Nat) (h : 10 ∉ l) : l.getD i 0 ≠ 10 := by
  rw [List.getD_eq_getElem?_getD]
  intro e
  by_cases hi : i < l.length
  · rw [List.getElem?_eq_getElem hi] at e
    simp only [Option.getD_some] at e
    exact h (e ▸ List.getElem_mem hi)
  · rw [List.getElem?_eq_none (by omega)] at e
    simp at e

/-- No newline among the first `n` bytes. -/
theorem memrchr_of_not_mem (buf : List Nat) (n : Nat) (h : 10 ∉ buf.take n) :
    memrchr buf 10 n = none := by
  rw [memrchr_none]
  intro i hi
  rw [← getD_take_lt buf n i hi]
  exact getD_ne_of_not_mem _ _ h

theorem getD_append_cons (p c : List Nat) (x : Nat) : (p ++ x :: c).getD p.length 0 = x := by
  rw [List.getD_eq_getElem?_getD, List.getElem?_append_right (Nat.le_refl _)]
  simp

theorem getD_append_cons_gt (p c : List Nat) (x i : Nat) (h : p.length < i) :
    (p ++ x :: c).getD i 0 = c.getD (i - p.length - 1) 0 := by
  rw [List.getD_eq_getElem?_getD, List.getD_eq_getElem?_getD,
    List.getElem?_append_right (by omega)]
  obtain ⟨k, hk⟩ : ∃ k, i - p.length = k + 1 := ⟨i - p.length - 1, by omega⟩
  rw [hk, List.getElem?_cons_succ]
  simp

/-- The last newline of the first `n` bytes sits where the decomposition says. -/
theorem memrchr_of_split (buf p c : List Nat) (n : Nat) (hle : n ≤ buf.length)
    (h : buf.take n = p ++ 10 :: c) (hc : 10 ∉ c) : memrchr buf 10 n = some p.length := by
  have hn : n = p.length + 1 + c.length := by
    have := congrArg List.length h
    simp [List.length_take] at this
    omega
  cases hm : memrchr buf 10 n with
  | none =>
    rw [memrchr_none] at hm
    have := hm p.length (by omega)
    rw [← getD_take_lt buf n _ (by omega), h, getD_append_cons] at this
    exact absurd rfl this
  | some i =>
    obtain ⟨h1, h2, h3⟩ := memrchr_some _ _ _ _ hm
    congr 1
    by_contra hne
    rcases Nat.lt_or_gt_of_ne hne with hlt | hgt
    · have := h3 p.length hlt (by omega)
      rw [← getD_take_lt buf n _ (by omega), h, getD_append_cons] at this
      exact absurd rfl this
    · rw [← getD_take_lt buf n _ h1, h, getD_append_cons_gt _ _ _ _ hgt] at h2
      exact getD_ne_of_not_mem _ _ hc h2

theorem read_spec (fd : Fd) (count : Nat) :
    fd.pending = (read fd count).1 ++ (read fd count).2.pending
      ∧ (read fd count).1.length ≤ count := by
  unfold read
  cases fd.sched with
  | nil => simp
  | cons k ks =>
    simp only [List.take_append_drop, List.length_take, true_and]
    omega

theorem growLoop_nil (bs : Nat) (buf : List Nat) (len : Nat) (pending : List Nat) :
    growLoop bs buf len pending [] =
      if len = bs then
        if bs = MAX_BUFFER then (bs, buf, len, ⟨pending, []⟩)
        else (bs + 4096, buf, len, ⟨pending, []⟩)
      else (bs, buf, len, ⟨pending, []⟩) := by
  unfold growLoop
  simp [read]

theorem growLoop_cons (bs : Nat) (buf : List Nat) (len : Nat) (pending : List Nat)
    (k : Nat) (ks : List Nat) :
    growLoop bs buf len pending (k :: ks) =
      if len = bs then
        if bs = MAX_BUFFER then (bs, buf, len, ⟨pending, k :: ks⟩)
        else if (read ⟨pending, k :: ks⟩ 4096).1.length = 0 then
          (bs + 4096, buf, len, (read ⟨pending, k :: ks⟩ 4096).2)
        else growLoop (bs + 4096) (store buf bs (read ⟨pending, k :: ks⟩ 4096).1)
          (len + (read ⟨pending, k :: ks⟩ 4096).1.length)
          (read ⟨pending, k :: ks⟩ 4096).2.pending ks
      else (bs, buf, len, ⟨pending, k :: ks⟩) := by
  rw [growLoop]
  simp only [Nat.add_sub_cancel_left]

theorem growLoop_spec (sched : List Nat) : ∀ (bs : Nat) (buf : List Nat) (len : Nat)
    (pending : List Nat), len ≤ buf.length → len ≤ bs → bs ≤ MAX_BUFFER →
    4096 ∣ MAX_BUFFER - bs →
    ∃ d, pending = d ++ (growLoop bs buf len pending sched).2.2.2.pending
      ∧ (growLoop bs buf len pending sched).2.1.take (growLoop bs buf len pending sched).2.2.1
          = buf.take len ++ d
      ∧ (growLoop bs buf len pending sched).2.2.1 = len + d.length
      ∧ (growLoop bs buf len pending sched).2.2.1 ≤ (growLoop bs buf len pending sched).2.1.length
      ∧ (growLoop bs buf len pending sched).2.2.1 ≤ (growLoop bs buf len pending sched).1
      ∧ (growLoop bs buf len pending sched).1 ≤ MAX_BUFFER
      ∧ 4096 ∣ MAX_BUFFER - (growLoop bs buf len pending sched).1 := by
  induction sched with
  | nil =>
    intro bs buf len pending h1 h2 h3 h4
    refine ⟨[], ?_⟩
    rw [growLoop_nil]
    obtain ⟨q, hq⟩ := h4
    by_cases hlen : len = bs
    · by_cases hmax : bs = MAX_BUFFER
      · simp only [if_pos hlen, if_pos hmax, List.nil_append, List.append_nil, List.length_nil,
          Nat.add_zero, true_and]
        exact ⟨h1, h2, h3, ⟨q, hq⟩⟩
      · simp only [if_pos hlen, if_neg hmax, List.nil_append, List.append_nil, List.length_nil,
          Nat.add_zero, true_and]
        exact ⟨h1, by omega, by omega, ⟨q - 1, by omega⟩⟩
    · simp only [if_neg hlen, List.nil_append, List.append_nil, List.length_nil,
        Nat.add_zero, true_and]
      exact ⟨h1, h2, h3, ⟨q, hq⟩⟩
  | cons k ks ih =>
    intro bs buf len pending h1 h2 h3 h4
    rw [growLoop_cons]
    obtain ⟨q, hq⟩ := h4
    by_cases hlen : len = bs
    · by_cases hmax : bs = MAX_BUFFER
      · refine ⟨[], ?_⟩
        simp only [if_pos hlen, if_pos hmax, List.nil_append, List.append_nil, List.length_nil,
          Nat.add_zero, true_and]
        exact ⟨h1, h2, h3, ⟨q, hq⟩⟩
      · have hrs := read_spec ⟨pending, k :: ks⟩ 4096
        simp only [] at hrs
        by_cases hz : (read ⟨pending, k :: ks⟩ 4096).1.length = 0
        · refine ⟨[], ?_⟩
          have hnil : (read ⟨pending, k :: ks⟩ 4096).1 = [] := List.length_eq_zero.1 hz
          rw [hnil] at hrs
          simp only [List.nil_append] at hrs
          simp only [if_pos hlen, if_neg hmax, if_pos hz, List.nil_append, List.append_nil,
            List.length_nil, Nat.add_zero, true_and]
          exact ⟨hrs.1, h1, by omega, by omega, ⟨q - 1, by omega⟩⟩
        · simp only [if_pos hlen, if_neg hmax, if_neg hz]
          obtain ⟨d2, e1, e2, e3, e4, e5, e6, e7⟩ := ih (bs + 4096)
            (store buf bs (read ⟨pending, k :: ks⟩ 4096).1)
            (len + (read ⟨pending, k :: ks⟩ 4096).1.length)
            (read ⟨pending, k :: ks⟩ 4096).2.pending
            (by rw [hlen]; exact store_length _ _ _ (by omega))
            (by have := hrs.2; omega) (by omega) ⟨q - 1, by omega⟩
          refine ⟨(read ⟨pending, k :: ks⟩ 4096).1 ++ d2, ?_, ?_, ?_, e4, e5, e6, e7⟩
          · rw [List.append_assoc, ← e1]
            exact hrs.1
          · rw [e2, hlen, store_take _ _ _ (by omega), List.append_assoc]
          · rw [e3, List.length_append]; omega
    · refine ⟨[], ?_⟩
      simp only [if_neg hlen, List.nil_append, List.append_nil, List.length_nil,
        Nat.add_zero, true_and]
      exact ⟨h1, h2, h3, ⟨q, hq⟩⟩

theorem carry_length (s : Statics) (h : s.wf) : (carry s).length = s.leftoverlen := by
  unfold carry
  rw [List.length_take, List.length_drop]
  have := h.1
  omega

theorem moved_take (s : Statics) (h : s.wf) :
    s.leftoverlen ≤ (if s.leftover ≠ 0 then
        store s.buffer 0 ((s.buffer.drop s.leftover).take s.leftoverlen) else s.buffer).length
    ∧ (if s.leftover ≠ 0 then
        store s.buffer 0 ((s.buffer.drop s.leftover).take s.leftoverlen) else s.buffer).take
          s.leftoverlen = carry s := by
  have hl := carry_length s h
  by_cases h0 : s.leftover ≠ 0
  · rw [if_pos h0]
    have e := store_take s.buffer (carry s) 0 (Nat.zero_le _)
    have e2 := store_length s.buffer (carry s) 0 (Nat.zero_le _)
    rw [hl] at e e2
    simp only [Nat.zero_add, List.take_zero, List.nil_append] at e e2
    exact ⟨e2, e⟩
  · rw [if_neg h0]
    have hz : s.leftover = 0 := by omega
    have := h.1
    refine ⟨by omega, ?_⟩
    unfold carry
    rw [hz, List.drop_zero]

theorem take_drop_of_take (l acc : List Nat) (n a : Nat) (h : l.take n = acc) :
    (l.drop a).take (n - a) = acc.drop a := by
  rw [← h]
  rw [List.drop_take]

/-- The last part of `readlines`, from the terminator store on, in terms of the
accumulated data `acc` (the first `len` bytes of the buffer). -/
theorem readlines_tail (bs len : Nat) (b3 acc : List Nat) (fd : Fd)
    (res : Output × Statics × Fd)
    (hl3 : len + 1 ≤ b3.length) (ht3 : b3.take len = acc) (hg3 : b3.getD len 0 = 0)
    (hbs : len ≤ bs) (hmax : bs ≤ MAX_BUFFER) (hdvd : 4096 ∣ MAX_BUFFER - bs)
    (hdef : res =
      match memrchr b3 10 len with
      | some lastline =>
        if lastline = len - 1 then
          (⟨some b3, len - 0⟩, ⟨bs, 0, 0, b3⟩, fd)
        else
          (⟨some (store b3 lastline [0]), lastline + 1 - 1⟩,
            ⟨bs, lastline + 1, len - (lastline + 1), store b3 lastline [0]⟩, fd)
      | none =>
        if len = MAX_BUFFER then (⟨none, 0⟩, ⟨bs, 0, 0, b3⟩, fd)
        else (⟨none, 0⟩, ⟨bs, 0, len, b3⟩, fd)) :
    res.2.1.wf ∧ res.2.1.buffersize = bs ∧ res.2.2 = fd
    ∧ (10 ∉ acc → res.1 = ⟨none, 0⟩ ∧ res.2.1.leftover = 0
        ∧ carry res.2.1 = if acc.length = MAX_BUFFER then [] else acc)
    ∧ (∀ p, acc = p ++ [10] → ∃ b, res.1 = ⟨some b, p.length + 1⟩
        ∧ b.take (p.length + 1) = p ++ [10] ∧ b.getD (p.length + 1) 0 = 0
        ∧ res.2.1.leftover = 0 ∧ res.2.1.leftoverlen = 0)
    ∧ (∀ p c, acc = p ++ 10 :: c → c ≠ [] → 10 ∉ c → ∃ b, res.1 = ⟨some b, p.length⟩
        ∧ b.take p.length = p ∧ b.getD p.length 0 = 0
        ∧ res.2.1.leftover = p.length + 1 ∧ res.2.1.leftoverlen = c.length
        ∧ carry res.2.1 = c)
    ∧ (∀ k, k ≤ len → 10 ∉ acc.take k → res.2.1.buffer.take k = acc.take k) := by
  have hpre : ∀ k, k ≤ len → b3.take k = acc.take k := by
    intro k hk
    rw [← ht3, List.take_take, Nat.min_eq_left hk]
  have haccl : acc.length = len := by
    rw [← ht3, List.length_take]; omega
  cases hm : memrchr b3 10 len with
  | none =>
    have hno : 10 ∉ acc := by
      intro hin
      rw [memrchr_none] at hm
      obtain ⟨i, hi, e⟩ := List.getElem_of_mem hin
      have := hm i (by omega)
      rw [← getD_take_lt b3 len i (by omega), ht3, List.getD_eq_getElem?_getD,
        List.getElem?_eq_getElem hi, e] at this
      exact this rfl
    have hres : res = if len = MAX_BUFFER then (⟨none, 0⟩, ⟨bs, 0, 0, b3⟩, fd)
        else (⟨none, 0⟩, ⟨bs, 0, len, b3⟩, fd) := by
      rw [hdef, hm]
    by_cases hfull : len = MAX_BUFFER
    · rw [if_pos hfull] at hres
      rw [hres]
      refine ⟨⟨by simp, by simp, hmax, hdvd⟩, rfl, rfl, ?_, ?_, ?_, fun k hk _ => hpre k hk⟩
      · intro _
        refine ⟨rfl, rfl, ?_⟩
        rw [haccl, if_pos hfull]
        simp [carry]
      · intro p hp
        exact absurd (hp ▸ (by simp : (10 : Nat) ∈ p ++ [10])) hno
      · intro p c hp _ _
        exact absurd (hp ▸ (by simp : (10 : Nat) ∈ p ++ 10 :: c)) hno
    · rw [if_neg hfull] at hres
      rw [hres]
      refine ⟨⟨by simp; omega, hbs, hmax, hdvd⟩, rfl, rfl, ?_, ?_, ?_, fun k hk _ => hpre k hk⟩
      · intro _
        refine ⟨rfl, rfl, ?_⟩
        rw [haccl, if_neg hfull]
        simp [carry, ht3]
      · intro p hp
        exact absurd (hp ▸ (by simp : (10 : Nat) ∈ p ++ [10])) hno
      · intro p c hp _ _
        exact absurd (hp ▸ (by simp : (10 : Nat) ∈ p ++ 10 :: c)) hno
  | some i =>
    obtain ⟨hi1, hi2, hi3⟩ := memrchr_some _ _ _ _ hm
    have hin : 10 ∈ acc := by
      rw [← getD_take_lt b3 len i hi1, ht3, List.getD_eq_getElem?_getD,
        List.getElem?_eq_getElem (by omega)] at hi2
      simp only [Option.getD_some] at hi2
      exact hi2 ▸ List.getElem_mem _
    have hres : res = if i = len - 1 then (⟨some b3, len - 0⟩, ⟨bs, 0, 0, b3⟩, fd)
        else (⟨some (store b3 i [0]), i + 1 - 1⟩,
          ⟨bs, i + 1, len - (i + 1), store b3 i [0]⟩, fd) := by
      rw [hdef, hm]
    by_cases hlast : i = len - 1
    · rw [if_pos hlast] at hres
      rw [hres]
      refine ⟨⟨by simp, by simp, hmax, hdvd⟩, rfl, rfl, fun h => absurd hin h, ?_, ?_,
        fun k hk _ => hpre k hk⟩
      · intro p hp
        have hpl : len = p.length + 1 := by rw [← haccl, hp]; simp
        refine ⟨b3, by simp [hpl], ?_, ?_, rfl, rfl⟩
        · rw [← hpl, ht3, hp]
        · rw [← hpl]; exact hg3
      · intro p c hp hc hnc
        exfalso
        have := memrchr_of_split b3 p c len (by omega) (ht3.trans hp) hnc
        rw [hm] at this
        injection this with this
        have hcl : 0 < c.length := List.length_pos.2 hc
        have : len = p.length + 1 + c.length := by rw [← haccl, hp]; simp; omega
        omega
    · rw [if_neg hlast] at hres
      rw [hres]
      have hb4 : (store b3 i [0]).length = b3.length := by
        unfold store
        simp [List.length_take]
        omega
      refine ⟨⟨by simp [hb4]; omega, by simp; omega, hmax, hdvd⟩, rfl, rfl,
        fun h => absurd hin h, ?_, ?_, ?_⟩
      · intro p hp
        exfalso
        have := memrchr_of_split b3 p [] len (by omega) (ht3.trans hp) (by simp)
        rw [hm] at this
        injection this with this
        have : len = p.length + 1 := by rw [← haccl, hp]; simp
        omega
      · intro p c hp hc hnc
        have hip := memrchr_of_split b3 p c len (by omega) (ht3.trans hp) hnc
        rw [hm] at hip
        injection hip with hip
        have hlen2 : len = p.length + 1 + c.length := by rw [← haccl, hp]; simp; omega
        subst hip
        refine ⟨store b3 p.length [0], by simp, ?_, store_getD b3 _ 0 (by omega), rfl, ?_, ?_⟩
        · rw [store_take_le _ _ _ _ (by omega) (Nat.le_refl _)]
          have : b3.take p.length = (b3.take len).take p.length := by
            rw [List.take_take, Nat.min_eq_left (by omega)]
          rw [this, ht3, hp]
          simp
        · simp; omega
        · show ((store b3 p.length [0]).drop (p.length + 1)).take (len - (p.length + 1)) = c
          have hd : (store b3 p.length [0]).drop (p.length + 1) = b3.drop (p.length + 1) := by
            unfold store
            have hl : (b3.take p.length ++ [0]).length = p.length + 1 := by
              simp [List.length_take]; omega
            rw [← hl, List.drop_left]
            rw [hl]
            rfl
          rw [hd, take_drop_of_take b3 acc len (p.length + 1) ht3, hp]
          simp
      · intro k hk hnk
        have hki : k ≤ i := by
          by_contra hlt
          apply hnk
          have hik : i < k := by omega
          have e : (acc.take k).getD i 0 = 10 := by
            rw [getD_take_lt acc k i hik, ← ht3, getD_take_lt b3 len i hi1]
            exact hi2
          rw [List.getD_eq_getElem?_getD, List.getElem?_eq_getElem
            (by rw [List.length_take]; omega)] at e
          simp only [Option.getD_some] at e
          exact e ▸ List.getElem_mem _
        show (store b3 i [0]).take k = acc.take k
        rw [store_take_le _ _ _ _ (by omega) hki]
        exact hpre k hk

/-- One call of `readlines` on well-formed statics, in terms of the accumulated
data: the carryover followed by the bytes `data` that the reads of this call
returned. -/
theorem readlines_spec (s : Statics) (fd : Fd) (h : s.wf) :
    ∃ data, fd.pending = data ++ (readlines s fd).2.2.pending
      ∧ (readlines s fd).2.1.wf
      ∧ (carry s ++ data).length ≤ (readlines s fd).2.1.buffersize
      ∧ (10 ∉ carry s ++ data → (readlines s fd).1 = ⟨none, 0⟩
          ∧ (readlines s fd).2.1.leftover = 0
          ∧ carry (readlines s fd).2.1
              = if (carry s ++ data).length = MAX_BUFFER then [] else carry s ++ data)
      ∧ (∀ p, carry s ++ data = p ++ [10] → ∃ b, (readlines s fd).1 = ⟨some b, p.length + 1⟩
          ∧ b.take (p.length + 1) = p ++ [10] ∧ b.getD (p.length + 1) 0 = 0
          ∧ (readlines s fd).2.1.leftover = 0 ∧ (readlines s fd).2.1.leftoverlen = 0)
      ∧ (∀ p c, carry s ++ data = p ++ 10 :: c → c ≠ [] → 10 ∉ c →
          ∃ b, (readlines s fd).1 = ⟨some b, p.length⟩
          ∧ b.take p.length = p ∧ b.getD p.length 0 = 0
          ∧ (readlines s fd).2.1.leftover = p.length + 1
          ∧ (readlines s fd).2.1.leftoverlen = c.length
          ∧ carry (readlines s fd).2.1 = c)
      ∧ (10 ∉ carry s → (readlines s fd).2.1.buffer.take (carry s).length = carry s) := by
  obtain ⟨hm1, hm2⟩ := moved_take s h
  have hcl := carry_length s h
  obtain ⟨hw1, hw2, hw3, hw4⟩ := h
  obtain ⟨hr1, hr2⟩ := read_spec fd (s.buffersize - s.leftoverlen)
  generalize hmv : (if s.leftover ≠ 0 then
    store s.buffer 0 ((s.buffer.drop s.leftover).take s.leftoverlen) else s.buffer) = b1 at hm1 hm2
  have ht2 : (store b1 s.leftoverlen (read fd (s.buffersize - s.leftoverlen)).1).take
      (s.leftoverlen + (read fd (s.buffersize - s.leftoverlen)).1.length)
      = carry s ++ (read fd (s.buffersize - s.leftoverlen)).1 := by
    rw [store_take _ _ _ hm1, hm2]
  have hl2 := store_length b1 (read fd (s.buffersize - s.leftoverlen)).1 s.leftoverlen hm1
  by_cases h0 : (read fd (s.buffersize - s.leftoverlen)).1.length + s.leftoverlen = 0
  · have e : readlines s fd = (⟨none, 0⟩, ⟨s.buffersize, 0, 0,
        store b1 s.leftoverlen (read fd (s.buffersize - s.leftoverlen)).1⟩,
        (read fd (s.buffersize - s.leftoverlen)).2) := by
      unfold readlines
      simp only [hmv, h0, if_true]
    have hd : (read fd (s.buffersize - s.leftoverlen)).1 = [] :=
      List.length_eq_zero.1 (by omega)
    have hc : carry s = [] := List.length_eq_zero.1 (by omega)
    refine ⟨[], ?_⟩
    rw [e, hc]
    rw [hd] at hr1
    refine ⟨hr1, ⟨by simp, by simp, hw3, hw4⟩, by simp, ?_, ?_, ?_, by simp⟩
    · intro _
      refine ⟨rfl, rfl, ?_⟩
      simp [carry, MAX_BUFFER]
    · intro p hp
      simp at hp
    · intro p c hp
      simp at hp
  · obtain ⟨d2, g1, g2, g3, g4, g5, g6, g7⟩ := growLoop_spec
      (read fd (s.buffersize - s.leftoverlen)).2.sched s.buffersize
      (store b1 s.leftoverlen (read fd (s.buffersize - s.leftoverlen)).1)
      ((read fd (s.buffersize - s.leftoverlen)).1.length + s.leftoverlen)
      (read fd (s.buffersize - s.leftoverlen)).2.pending
      (by omega) (by omega) hw3 hw4
    have hacc : ((growLoop s.buffersize
        (store b1 s.leftoverlen (read fd (s.buffersize - s.leftoverlen)).1)
        ((read fd (s.buffersize - s.leftoverlen)).1.length + s.leftoverlen)
        (read fd (s.buffersize - s.leftoverlen)).2.pending
        (read fd (s.buffersize - s.leftoverlen)).2.sched).2.1.take
        (growLoop s.buffersize
        (store b1 s.leftoverlen (read fd (s.buffersize - s.leftoverlen)).1)
        ((read fd (s.buffersize - s.leftoverlen)).1.length + s.leftoverlen)
        (read fd (s.buffersize - s.leftoverlen)).2.pending
        (read fd (s.buffersize - s.leftoverlen)).2.sched).2.2.1)
        = carry s ++ ((read fd (s.buffersize - s.leftoverlen)).1 ++ d2) := by
      rw [g2, Nat.add_comm, ht2, List.append_assoc]
    generalize hg : growLoop s.buffersize
        (store b1 s.leftoverlen (read fd (s.buffersize - s.leftoverlen)).1)
        ((read fd (s.buffersize - s.leftoverlen)).1.length + s.leftoverlen)
        (read fd (s.buffersize - s.leftoverlen)).2.pending
        (read fd (s.buffersize - s.leftoverlen)).2.sched = g at g1 g2 g3 g4 g5 g6 g7 hacc
    have htl := readlines_tail g.1 g.2.2.1 (store g.2.1 g.2.2.1 [0])
      (carry s ++ ((read fd (s.buffersize - s.leftoverlen)).1 ++ d2)) g.2.2.2 (readlines s fd)
      (store_length g.2.1 [0] g.2.2.1 g4)
      (by rw [store_take_le _ _ _ _ g4 (Nat.le_refl _)]; exact hacc)
      (store_getD _ _ _ g4) g5 g6 g7
      (by
        unfold readlines
        simp only [hmv, if_neg h0, hg])
    obtain ⟨t1, t2, t3, t4, t5, t6, t7⟩ := htl
    have hlen : (carry s).length ≤ g.2.2.1 := by
      have := congrArg List.length hacc
      rw [List.length_take, List.length_append] at this
      omega
    refine ⟨(read fd (s.buffersize - s.leftoverlen)).1 ++ d2, ?_, t1, ?_, t4, t5, t6, ?_⟩
    rotate_left 2
    · intro hnc
      have := t7 (carry s).length hlen (by rw [List.take_left]; exact hnc)
      rw [List.take_left] at this
      exact this
    · rw [t3, List.append_assoc, ← g1]
      exact hr1
    · rw [t2]
      have := congrArg List.length hacc
      rw [List.length_take] at this
      omega

theorem initial_wf : Statics.initial.wf := by
  refine ⟨by decide, by decide, by decide, ?_⟩
  exact ⟨255, by decide⟩

theorem readCalls_wf (n : Nat) : ∀ (s : Statics) (fd : Fd), s.wf → (readCalls n s fd).2.1.wf := by
  induction n with
  | zero => intro s fd h; exact h
  | succ n ih =>
    intro s fd h
    obtain ⟨_, _, hwf, _⟩ := readlines_spec s fd h
    exact ih _ _ hwf

theorem delivered_of_split (a b : Fd) (data : List Nat) (h : a.pending = data ++ b.pending) :
    delivered a b = data := by
  unfold delivered
  rw [h, List.length_append, Nat.add_sub_cancel, List.take_left]

theorem takeWhile_text (p : List Nat) : ∀ (b : List Nat), b.take p.length = p →
    b.getD p.length 0 = 0 → (∀ x, x ∈ p → x ≠ 0) → b.takeWhile (fun x => x != 0) = p := by
  induction p with
  | nil =>
    intro b _ h0 _
    cases b with
    | nil => rfl
    | cons x xs =>
      have : x = 0 := by simpa using h0
      subst this
      simp [List.takeWhile]
  | cons y ys ih =>
    intro b ht h0 hall
    cases b with
    | nil => simp at ht
    | cons x xs =>
      simp only [List.length_cons, List.take_succ_cons, List.cons.injEq] at ht
      obtain ⟨rfl, ht⟩ := ht
      have hx : x ≠ 0 := hall x (by simp)
      have := ih xs ht (by simpa using h0) (fun z hz => hall z (by simp [hz]))
      have hb : (x != 0) = true := by simpa using hx
      rw [List.takeWhile_cons, hb, this]
      rfl

theorem uptoLastNewline_split (p : List Nat) : ∀ (c : List Nat), 10 ∉ c →
    uptoLastNewline (p ++ 10 :: c) = p ++ [10] := by
  have hno : ∀ c : List Nat, 10 ∉ c → uptoLastNewline c = [] := by
    intro c hc
    cases c with
    | nil => rfl
    | cons x xs => rw [uptoLastNewline, if_neg hc]
  induction p with
  | nil =>
    intro c hc
    rw [List.nil_append, uptoLastNewline, if_pos (by simp), hno c hc]
    rfl
  | cons x xs ih =>
    intro c hc
    rw [List.cons_append, uptoLastNewline, if_pos (by simp), ih c hc]
    rfl

/-- C6, as stated, fails: the accumulated data is `a`, newline, `b`; the claim
requires the block `a`, newline with count 2, the code hands over the block `a`
with count 1. -/
theorem readlines_block_counterexample :
    ¬ ((readlines Statics.initial ⟨[97, 10, 98], [3]⟩).1.block
        = some (uptoLastNewline (carry Statics.initial
            ++ delivered ⟨[97, 10, 98], [3]⟩ (readlines Statics.initial ⟨[97, 10, 98], [3]⟩).2.2))
      ∧ (readlines Statics.initial ⟨[97, 10, 98], [3]⟩).1.ret
        = (uptoLastNewline (carry Statics.initial
            ++ delivered ⟨[97, 10, 98], [3]⟩
              (readlines Statics.initial ⟨[97, 10, 98], [3]⟩).2.2)).length) := by
  decide

/-- C6, amended: take any call of any sequence of calls that starts from the
initial statics, and let its accumulated data (carryover, then the bytes read
by this call) be `p`, a newline, and a newline-free rest `c`.  If `c` is not
empty, the block handed to the caller is `p`, that is the data up to but not
including the last newline, the returned count is the length of `p`, the C
string at `*input` is `p` as well when `p` has no zero byte, the carryover
after the call is `c`, and after the next call, whatever it reads, the buffer
starts with `c`.  If `c` is empty, the block is the whole accumulated data, the
count is its length and no carryover is kept. -/
theorem readlines_chop (n : Nat) (fd0 : Fd) (p c : List Nat)
    (hacc : carry (readCalls n Statics.initial fd0).2.1
      ++ delivered (readCalls n Statics.initial fd0).2.2
          (readlines (readCalls n Statics.initial fd0).2.1
            (readCalls n Statics.initial fd0).2.2).2.2 = p ++ 10 :: c)
    (hnc : 10 ∉ c) :
    p ++ [10] = uptoLastNewline (p ++ 10 :: c)
    ∧ (c ≠ [] →
      (readlines (readCalls n Statics.initial fd0).2.1
          (readCalls n Statics.initial fd0).2.2).1.block = some p
      ∧ (readlines (readCalls n Statics.initial fd0).2.1
          (readCalls n Statics.initial fd0).2.2).1.ret = p.length
      ∧ ((∀ x, x ∈ p → x ≠ 0) → (readlines (readCalls n Statics.initial fd0).2.1
          (readCalls n Statics.initial fd0).2.2).1.cstr = some p)
      ∧ carry (readlines (readCalls n Statics.initial fd0).2.1
          (readCalls n Statics.initial fd0).2.2).2.1 = c
      ∧ ∀ fd2 : Fd, (readlines (readlines (readCalls n Statics.initial fd0).2.1
          (readCalls n Statics.initial fd0).2.2).2.1 fd2).2.1.buffer.take c.length = c)
    ∧ (c = [] →
      (readlines (readCalls n Statics.initial fd0).2.1
          (readCalls n Statics.initial fd0).2.2).1.block = some (p ++ [10])
      ∧ (readlines (readCalls n Statics.initial fd0).2.1
          (readCalls n Statics.initial fd0).2.2).1.ret = (p ++ [10]).length
      ∧ carry (readlines (readCalls n Statics.initial fd0).2.1
          (readCalls n Statics.initial fd0).2.2).2.1 = []) := by
  have hwf := readCalls_wf n Statics.initial fd0 initial_wf
  generalize (readCalls n Statics.initial fd0).2.1 = s at hacc hwf
  generalize (readCalls n Statics.initial fd0).2.2 = fd at hacc
  obtain ⟨data, h1, h2, _, _, h5, h6, _⟩ := readlines_spec s fd hwf
  rw [delivered_of_split _ _ _ h1] at hacc
  refine ⟨(uptoLastNewline_split p c hnc).symm, ?_, ?_⟩
  · intro hc
    obtain ⟨b, e1, e2, e3, e4, e5, e6⟩ := h6 p c hacc hc hnc
    refine ⟨?_, ?_, ?_, e6, ?_⟩
    · rw [e1]
      simp [Output.block, e2]
    · rw [e1]
    · intro hz
      rw [e1]
      simp only [Output.cstr, Option.map_some']
      rw [takeWhile_text p b e2 e3 hz]
    · intro fd2
      obtain ⟨_, _, _, _, _, _, _, h8⟩ := readlines_spec _ fd2 h2
      rw [e6] at h8
      exact h8 hnc
  · intro hc
    subst hc
    obtain ⟨b, e1, e2, _, e4, e5⟩ := h5 p hacc
    refine ⟨?_, ?_, ?_⟩
    · rw [e1]
      simp [Output.block, e2]
    · rw [e1]
      simp
    · unfold carry
      rw [e5, List.take_zero]

theorem readlines_chop_witness :
    (readlines (readCalls 0 Statics.initial ⟨[97, 10, 98], [3]⟩).2.1
      (readCalls 0 Statics.initial ⟨[97, 10, 98], [3]⟩).2.2).1.block = some [97] :=
  ((readlines_chop 0 ⟨[97, 10, 98], [3]⟩ [97] [98] (by decide) (by decide)).2.1
    (by decide)).1

/-! ### Streams without newline -/

theorem not_mem_of_append_right {a b : List Nat} (h : 10 ∉ a ++ b) : 10 ∉ b := by
  intro hb
  exact h (List.mem_append_right a hb)

theorem not_mem_of_append_left {a b : List Nat} (h : 10 ∉ a ++ b) : 10 ∉ a := by
  intro ha
  exact h (List.mem_append_left b ha)

/-- Calls on a channel whose carryover and pending bytes hold no newline keep
that property. -/
theorem readCalls_newline_free (n : Nat) : ∀ (s : Statics) (fd : Fd), s.wf →
    10 ∉ carry s ++ fd.pending →
    10 ∉ carry (readCalls n s fd).2.1 ++ (readCalls n s fd).2.2.pending := by
  induction n with
  | zero => intro s fd _ h; exact h
  | succ n ih =>
    intro s fd hwf h
    obtain ⟨data, h1, h2, _, h4, _, _, _⟩ := readlines_spec s fd hwf
    rw [h1, ← List.append_assoc] at h
    obtain ⟨_, _, e3⟩ := h4 (not_mem_of_append_left h)
    apply ih _ _ h2
    rw [e3]
    split
    · exact not_mem_of_append_right h
    · exact h

/-- C7: feed a stream without newline to any sequence of calls that starts from
the initial statics.  Every call reports the null block and count 0.  With
`acc` the data accumulated by a call (its carryover, then the bytes it read),
`acc` never exceeds the capacity, the capacity is 4095 plus a multiple of 4096
and never exceeds `MAX_BUFFER = 1048575`; while `acc` is shorter than
`MAX_BUFFER` it is retained whole as the next carryover, and when it reaches
`MAX_BUFFER` it is discarded: the next call starts with an empty carryover. -/
theorem readlines_no_newline (n : Nat) (stream sched : List Nat) (hfree : 10 ∉ stream) :
    (readlines (readCalls n Statics.initial ⟨stream, sched⟩).2.1
        (readCalls n Statics.initial ⟨stream, sched⟩).2.2).1 = ⟨none, 0⟩
    ∧ (carry (readCalls n Statics.initial ⟨stream, sched⟩).2.1
        ++ delivered (readCalls n Statics.initial ⟨stream, sched⟩).2.2
          (readlines (readCalls n Statics.initial ⟨stream, sched⟩).2.1
            (readCalls n Statics.initial ⟨stream, sched⟩).2.2).2.2).length
        ≤ (readlines (readCalls n Statics.initial ⟨stream, sched⟩).2.1
            (readCalls n Statics.initial ⟨stream, sched⟩).2.2).2.1.buffersize
    ∧ (readlines (readCalls n Statics.initial ⟨stream, sched⟩).2.1
        (readCalls n Statics.initial ⟨stream, sched⟩).2.2).2.1.buffersize ≤ MAX_BUFFER
    ∧ MAX_BUFFER = 1048575
    ∧ (∃ k, (readlines (readCalls n Statics.initial ⟨stream, sched⟩).2.1
        (readCalls n Statics.initial ⟨stream, sched⟩).2.2).2.1.buffersize = 4095 + 4096 * k)
    ∧ ((carry (readCalls n Statics.initial ⟨stream, sched⟩).2.1
        ++ delivered (readCalls n Statics.initial ⟨stream, sched⟩).2.2
          (readlines (readCalls n Statics.initial ⟨stream, sched⟩).2.1
            (readCalls n Statics.initial ⟨stream, sched⟩).2.2).2.2).length < MAX_BUFFER →
        carry (readlines (readCalls n Statics.initial ⟨stream, sched⟩).2.1
            (readCalls n Statics.initial ⟨stream, sched⟩).2.2).2.1
          = carry (readCalls n Statics.initial ⟨stream, sched⟩).2.1
            ++ delivered (readCalls n Statics.initial ⟨stream, sched⟩).2.2
              (readlines (readCalls n Statics.initial ⟨stream, sched⟩).2.1
                (readCalls n Statics.initial ⟨stream, sched⟩).2.2).2.2)
    ∧ ((carry (readCalls n Statics.initial ⟨stream, sched⟩).2.1
        ++ delivered (readCalls n Statics.initial ⟨stream, sched⟩).2.2
          (readlines (readCalls n Statics.initial ⟨stream, sched⟩).2.1
            (readCalls n Statics.initial ⟨stream, sched⟩).2.2).2.2).length = MAX_BUFFER →
        carry (readlines (readCalls n Statics.initial ⟨stream, sched⟩).2.1
            (readCalls n Statics.initial ⟨stream, sched⟩).2.2).2.1 = []
        ∧ (readlines (readCalls n Statics.initial ⟨stream, sched⟩).2.1
            (readCalls n Statics.initial ⟨stream, sched⟩).2.2).2.1.leftover = 0
        ∧ (readlines (readCalls n Statics.initial ⟨stream, sched⟩).2.1
            (readCalls n Statics.initial ⟨stream, sched⟩).2.2).2.1.leftoverlen = 0) := by
  have hwf := readCalls_wf n Statics.initial ⟨stream, sched⟩ initial_wf
  have hnl := readCalls_newline_free n Statics.initial ⟨stream, sched⟩ initial_wf
    (by simpa [carry, Statics.initial] using hfree)
  generalize (readCalls n Statics.initial ⟨stream, sched⟩).2.1 = s at hwf hnl
  generalize (readCalls n Statics.initial ⟨stream, sched⟩).2.2 = fd at hnl
  obtain ⟨data, h1, h2, h3, h4, _, _, _⟩ := readlines_spec s fd hwf
  rw [delivered_of_split _ _ _ h1]
  rw [h1, ← List.append_assoc] at hnl
  obtain ⟨e1, e2, e3⟩ := h4 (not_mem_of_append_left hnl)
  obtain ⟨w1, w2, w3, q, hq⟩ := h2
  have hM : MAX_BUFFER = 1048575 := by decide
  refine ⟨e1, h3, w3, hM, ⟨255 - q, by omega⟩, ?_, ?_⟩
  · intro hlt
    rw [e3, if_neg (by omega)]
  · intro heq
    rw [if_pos heq] at e3
    have hcl := carry_length _ ⟨w1, w2, w3, q, hq⟩
    rw [e3] at hcl
    exact ⟨e3, e2, hcl.symm⟩

theorem readlines_no_newline_witness :
    (readlines (readCalls 1 Statics.initial ⟨[97, 98, 99], [2, 1]⟩).2.1
      (readCalls 1 Statics.initial ⟨[97, 98, 99], [2, 1]⟩).2.2).1 = ⟨none, 0⟩ :=
  (readlines_no_newline 1 [97, 98, 99] [2, 1] (by decide)).1

/-! ### Streams of lines -/

theorem linesFrom_no_newline (c : List Nat) : ∀ (cur : List Nat), 10 ∉ c → linesFrom cur c = [] := by
  induction c with
  | nil => intro cur _; rfl
  | cons x xs ih =>
    intro cur h
    have hx : x ≠ 10 := fun e => h (e ▸ List.mem_cons_self _ _)
    rw [linesFrom, if_neg hx]
    exact ih _ (fun hm => h (List.mem_cons_of_mem _ hm))

theorem linesFrom_append (a : List Nat) : ∀ (cur b : List Nat),
    linesFrom cur (a ++ 10 :: b) = linesFrom cur (a ++ [10]) ++ linesFrom [] b := by
  induction a with
  | nil =>
    intro cur b
    simp [linesFrom]
  | cons x xs ih =>
    intro cur b
    by_cases hx : x = 10
    · rw [List.cons_append, List.cons_append, linesFrom, linesFrom, if_pos hx, if_pos hx,
        ih [] b]
      rfl
    · rw [List.cons_append, List.cons_append, linesFrom, linesFrom, if_neg hx, if_neg hx]
      exact ih _ b

theorem linesFrom_join (a : List Nat) : ∀ (cur : List Nat),
    (linesFrom cur (a ++ [10])).flatten = cur ++ a ++ [10] := by
  induction a with
  | nil =>
    intro cur
    simp [linesFrom]
  | cons x xs ih =>
    intro cur
    by_cases hx : x = 10
    · rw [List.cons_append, linesFrom, if_pos hx, List.flatten_cons, ih []]
      subst hx
      simp
    · rw [List.cons_append, linesFrom, if_neg hx, ih]
      simp

theorem wholeLines_iff (b : List Nat) : wholeLines b ↔ b = [] ∨ ∃ p, b = p ++ [10] := by
  unfold wholeLines
  constructor
  · rintro (h | h)
    · exact Or.inl h
    · have hne : b ≠ [] := by
        intro e
        subst e
        simp at h
      refine Or.inr ⟨b.dropLast, ?_⟩
      have hd := List.dropLast_append_getLast hne
      rw [List.getLast?_eq_getLast _ hne] at h
      injection h with h
      rw [h] at hd
      exact hd.symm
  · rintro (h | ⟨p, rfl⟩)
    · exact Or.inl h
    · exact Or.inr (by simp)

theorem terminatedLines_append (a b : List Nat) (ha : wholeLines a) :
    terminatedLines (a ++ b) = terminatedLines a ++ terminatedLines b := by
  rcases (wholeLines_iff a).1 ha with rfl | ⟨p, rfl⟩
  · rfl
  · unfold terminatedLines
    rw [List.append_assoc]
    exact linesFrom_append p [] b

theorem terminatedLines_join (a : List Nat) (ha : wholeLines a) :
    (terminatedLines a).flatten = a := by
  rcases (wholeLines_iff a).1 ha with rfl | ⟨p, rfl⟩
  · rfl
  · unfold terminatedLines
    rw [linesFrom_join]
    rfl

theorem wholeLines_append (a b : List Nat) (ha : wholeLines a) (hb : wholeLines b) :
    wholeLines (a ++ b) := by
  rcases (wholeLines_iff b).1 hb with rfl | ⟨p, rfl⟩
  · rw [List.append_nil]; exact ha
  · exact (wholeLines_iff _).2 (Or.inr ⟨a ++ p, by rw [List.append_assoc]⟩)

theorem wholeLines_flatten (bs : List (List Nat)) (h : ∀ b, b ∈ bs → wholeLines b) :
    wholeLines bs.flatten := by
  induction bs with
  | nil => exact Or.inl rfl
  | cons x xs ih =>
    rw [List.flatten_cons]
    exact wholeLines_append _ _ (h x (List.mem_cons_self _ _))
      (ih (fun b hb => h b (List.mem_cons_of_mem _ hb)))

theorem terminatedLines_flatten (bs : List (List Nat)) (h : ∀ b, b ∈ bs → wholeLines b) :
    terminatedLines bs.flatten = (bs.map terminatedLines).flatten := by
  induction bs with
  | nil => rfl
  | cons x xs ih =>
    rw [List.flatten_cons, List.map_cons, List.flatten_cons,
      terminatedLines_append _ _ (h x (List.mem_cons_self _ _)),
      ih (fun b hb => h b (List.mem_cons_of_mem _ hb))]

theorem exists_last_newline (acc : List Nat) (h : 10 ∈ acc) :
    ∃ p c, acc = p ++ 10 :: c ∧ 10 ∉ c := by
  induction acc with
  | nil => simp at h
  | cons x xs ih =>
    by_cases hx : 10 ∈ xs
    · obtain ⟨p, c, e, hc⟩ := ih hx
      exact ⟨x :: p, c, by rw [e]; rfl, hc⟩
    · have : x = 10 := by
        rcases List.mem_cons.1 h with e | e
        · exact e.symm
        · exact absurd e hx
      exact ⟨[], xs, by rw [this]; rfl, hx⟩

/-- One call that does not discard: the completed block and the new carryover
make up the accumulated data, the completed block consists of whole lines and
the carryover has no newline. -/
theorem readlines_step (s : Statics) (fd : Fd) (hwf : s.wf)
    (hshort : 10 ∉ carry s ++ delivered fd (readlines s fd).2.2 →
      (carry s ++ delivered fd (readlines s fd).2.2).length < MAX_BUFFER) :
    completedBlock (readlines s fd) ++ carry (readlines s fd).2.1
        = carry s ++ delivered fd (readlines s fd).2.2
      ∧ (10 ∉ carry s → wholeLines (completedBlock (readlines s fd)))
      ∧ 10 ∉ carry (readlines s fd).2.1 := by
  obtain ⟨data, h1, h2, h3, h4, h5, h6, _⟩ := readlines_spec s fd hwf
  rw [delivered_of_split _ _ _ h1] at hshort ⊢
  by_cases hin : 10 ∈ carry s ++ data
  · obtain ⟨p, c, e, hc⟩ := exists_last_newline _ hin
    by_cases hcn : c = []
    · subst hcn
      obtain ⟨b, e1, e2, _, e4, e5⟩ := h5 p e
      have hcar : carry (readlines s fd).2.1 = [] := by
        unfold carry
        rw [e5, List.take_zero]
      have hblk : completedBlock (readlines s fd) = p ++ [10] := by
        unfold completedBlock
        simp [e1, Output.block, e2, e4]
      rw [hcar, hblk, e]
      exact ⟨by simp, fun _ => (wholeLines_iff _).2 (Or.inr ⟨p, rfl⟩), by simp⟩
    · obtain ⟨b, e1, e2, _, e4, _, e6⟩ := h6 p c e hcn hc
      have hblk : completedBlock (readlines s fd) = p ++ [10] := by
        unfold completedBlock
        simp [e1, Output.block, e2, e4]
      rw [e6, hblk, e]
      exact ⟨by simp, fun _ => (wholeLines_iff _).2 (Or.inr ⟨p, rfl⟩), hc⟩
  · obtain ⟨e1, _, e3⟩ := h4 hin
    have hlt := hshort hin
    rw [if_neg (by omega)] at e3
    have hblk : completedBlock (readlines s fd) = [] := by
      unfold completedBlock
      simp [e1, Output.block]
    rw [e3, hblk]
    exact ⟨rfl, fun _ => Or.inl rfl, hin⟩

theorem readCalls_succ (n : Nat) (s : Statics) (fd : Fd) :
    readCalls (n + 1) s fd = (readlines s fd ::
      (readCalls n (readlines s fd).2.1 (readlines s fd).2.2).1,
      (readCalls n (readlines s fd).2.1 (readlines s fd).2.2).2) := rfl

/-- Calls that never discard: the completed blocks, the final carryover and the
bytes still pending make up the carryover and the pending bytes at the start. -/
theorem readCalls_stream (n : Nat) : ∀ (s : Statics) (fd : Fd), s.wf → 10 ∉ carry s →
    (∀ seg, seg <:+: carry s ++ fd.pending → 10 ∉ seg → seg.length < MAX_BUFFER) →
    ((readCalls n s fd).1.map completedBlock).flatten ++ carry (readCalls n s fd).2.1
        ++ (readCalls n s fd).2.2.pending = carry s ++ fd.pending
      ∧ (∀ b, b ∈ (readCalls n s fd).1.map completedBlock → wholeLines b)
      ∧ 10 ∉ carry (readCalls n s fd).2.1 := by
  induction n with
  | zero =>
    intro s fd _ hc _
    exact ⟨by simp [readCalls], by simp [readCalls], hc⟩
  | succ n ih =>
    intro s fd hwf hc hshort
    obtain ⟨data, h1, h2, _⟩ := readlines_spec s fd hwf
    have hd := delivered_of_split _ _ _ h1
    obtain ⟨s1, s2, s3⟩ := readlines_step s fd hwf (by
      intro hno
      apply hshort _ _ hno
      rw [hd, h1, ← List.append_assoc]
      exact List.infix_append' [] _ _)
    rw [hd] at s1
    have hsplit : carry s ++ fd.pending = completedBlock (readlines s fd)
        ++ (carry (readlines s fd).2.1 ++ (readlines s fd).2.2.pending) := by
      rw [h1, ← List.append_assoc, ← s1, List.append_assoc]
    obtain ⟨i1, i2, i3⟩ := ih (readlines s fd).2.1 (readlines s fd).2.2 h2 s3 (by
      intro seg hseg hno
      apply hshort seg _ hno
      rw [hsplit]
      exact List.IsInfix.trans hseg (List.infix_append' _ _ [] |> fun h => by simpa using h))
    rw [readCalls_succ]
    simp only [List.map_cons, List.flatten_cons]
    refine ⟨?_, ?_, i3⟩
    · rw [List.append_assoc, List.append_assoc, ← List.append_assoc (List.flatten _), i1, hsplit]
    · intro b hb
      rcases List.mem_cons.1 hb with e | e
      · rw [e]; exact s2 hc
      · exact i2 b e

/-- C1, amended: feed a stream in which every newline-free stretch is shorter
than `MAX_BUFFER` to any number of calls, starting from the initial statics,
with the reads cutting the stream in any way.  Complete each emitted block by
the newline that its call replaced with the terminator when it kept a
remainder.  Then the lines of the completed blocks, block after block, are
exactly the newline-terminated lines of the bytes delivered so far, so no line
lies across two blocks and no unterminated fragment is emitted; the completed
blocks concatenate to the concatenation of these lines; and once the handle has
nothing pending these are the lines of the whole stream. -/
theorem readlines_stream (n : Nat) (stream sched : List Nat)
    (hshort : ∀ seg, seg <:+: stream → 10 ∉ seg → seg.length < MAX_BUFFER) :
    (((readCalls n Statics.initial ⟨stream, sched⟩).1.map completedBlock).map
        terminatedLines).flatten
      = terminatedLines (delivered ⟨stream, sched⟩
          (readCalls n Statics.initial ⟨stream, sched⟩).2.2)
    ∧ ((readCalls n Statics.initial ⟨stream, sched⟩).1.map completedBlock).flatten
      = (terminatedLines (delivered ⟨stream, sched⟩
          (readCalls n Statics.initial ⟨stream, sched⟩).2.2)).flatten
    ∧ ((readCalls n Statics.initial ⟨stream, sched⟩).2.2.pending = [] →
        ((readCalls n Statics.initial ⟨stream, sched⟩).1.map completedBlock).flatten
          = (terminatedLines stream).flatten) := by
  have hc0 : carry Statics.initial = [] := rfl
  obtain ⟨h1, h2, h3⟩ := readCalls_stream n Statics.initial ⟨stream, sched⟩ initial_wf
    (by rw [hc0]; simp) (by rw [hc0]; exact hshort)
  rw [hc0, List.nil_append] at h1
  have hd : delivered ⟨stream, sched⟩ (readCalls n Statics.initial ⟨stream, sched⟩).2.2
      = ((readCalls n Statics.initial ⟨stream, sched⟩).1.map completedBlock).flatten
        ++ carry (readCalls n Statics.initial ⟨stream, sched⟩).2.1 :=
    delivered_of_split _ _ _ h1.symm
  have hw := wholeLines_flatten _ h2
  have hl : terminatedLines (delivered ⟨stream, sched⟩
      (readCalls n Statics.initial ⟨stream, sched⟩).2.2)
      = terminatedLines
        ((readCalls n Statics.initial ⟨stream, sched⟩).1.map completedBlock).flatten := by
    rw [hd, terminatedLines_append _ _ hw]
    unfold terminatedLines
    rw [linesFrom_no_newline _ _ h3, List.append_nil]
  have hj : ((readCalls n Statics.initial ⟨stream, sched⟩).1.map completedBlock).flatten
      = (terminatedLines (delivered ⟨stream, sched⟩
          (readCalls n Statics.initial ⟨stream, sched⟩).2.2)).flatten := by
    rw [hl, terminatedLines_join _ hw]
  refine ⟨?_, hj, ?_⟩
  · rw [hl, terminatedLines_flatten _ h2]
  · intro hp
    rw [hj]
    unfold delivered
    rw [hp]
    simp

theorem readlines_stream_witness :
    ((readCalls 2 Statics.initial ⟨[97, 10, 98, 10], [3, 1]⟩).1.map completedBlock).flatten
      = (terminatedLines (delivered ⟨[97, 10, 98, 10], [3, 1]⟩
          (readCalls 2 Statics.initial ⟨[97, 10, 98, 10], [3, 1]⟩).2.2)).flatten :=
  (readlines_stream 2 [97, 10, 98, 10] [3, 1]
    (fun seg hseg _ => lt_of_le_of_lt (List.IsInfix.length_le hseg) (by decide))).2.1

/-- C1, as stated, fails: the stream `a`, newline, `b`, newline arrives as a
fragment of three bytes and a fragment of one byte; the two calls emit the
blocks `a` and `b`, newline, whose concatenation is not the concatenation of
the two lines of the stream. -/
theorem readlines_concat_counterexample :
    ¬ ((emittedBlocks (readCalls 2 Statics.initial ⟨[97, 10, 98, 10], [3, 1]⟩).1).flatten
        = (terminatedLines [97, 10, 98, 10]).flatten) := by
  decide

/-! ### The ceiling is reached -/

theorem growLoop_fill (k : Nat) : ∀ (bs : Nat) (buf pending : List Nat),
    bs + 4096 * k = MAX_BUFFER → pending.length = 4096 * k →
    (growLoop bs buf bs pending (List.replicate k 4096)).2.2.1 = MAX_BUFFER
      ∧ (growLoop bs buf bs pending (List.replicate k 4096)).2.2.2.pending = [] := by
  induction k with
  | zero =>
    intro bs buf pending hbs hp
    have hnil : pending = [] := List.length_eq_zero.1 (by omega)
    have hmax : bs = MAX_BUFFER := by omega
    rw [List.replicate_zero, growLoop_nil, if_pos rfl, if_pos hmax]
    exact ⟨hmax, hnil⟩
  | succ k ih =>
    intro bs buf pending hbs hp
    have hne : bs ≠ MAX_BUFFER := by omega
    have hmin : min 4096 4096 = 4096 := rfl
    have hlen : (List.take 4096 pending).length = 4096 := by
      rw [List.length_take]; omega
    rw [List.replicate_succ, growLoop_cons, if_pos rfl, if_neg hne]
    simp only [read, hmin, hlen]
    rw [if_neg (by decide)]
    exact ih (bs + 4096) _ _ (by omega) (by rw [List.length_drop]; omega)

theorem readlines_full (stream : List Nat) (hlen : stream.length = MAX_BUFFER)
    (hfree : 10 ∉ stream) :
    delivered ⟨stream, 4096 :: List.replicate 255 4096⟩
        (readlines Statics.initial ⟨stream, 4096 :: List.replicate 255 4096⟩).2.2 = stream
      ∧ (readlines Statics.initial ⟨stream, 4096 :: List.replicate 255 4096⟩).1 = ⟨none, 0⟩
      ∧ (readlines Statics.initial
          ⟨stream, 4096 :: List.replicate 255 4096⟩).2.1.buffersize = MAX_BUFFER
      ∧ carry (readlines Statics.initial ⟨stream, 4096 :: List.replicate 255 4096⟩).2.1 = [] := by
  have hM : MAX_BUFFER = 1048575 := by decide
  have hfill := growLoop_fill 255 4095 (store [] 0 (List.take 4095 stream))
    (List.drop 4095 stream) (by omega) (by rw [List.length_drop]; omega)
  have hpend : (readlines Statics.initial
      ⟨stream, 4096 :: List.replicate 255 4096⟩).2.2.pending = [] := by
    have hl : (List.take 4095 stream).length = 4095 := by
      rw [List.length_take]; omega
    have hmin : min 4096 (4095 - 0) = 4095 := rfl
    unfold readlines
    simp only [Statics.initial, read, hmin, hl, Nat.add_zero, ne_eq, not_true_eq_false,
      if_false]
    rw [if_neg (by decide)]
    split
    · split <;> exact hfill.2
    · split <;> exact hfill.2
  obtain ⟨data, h1, h2, h3, h4, _, _, _⟩ := readlines_spec Statics.initial
    ⟨stream, 4096 :: List.replicate 255 4096⟩ initial_wf
  rw [hpend, List.append_nil] at h1
  have h1' : stream = data := h1
  have hc0 : carry Statics.initial = [] := rfl
  rw [hc0, List.nil_append, ← h1'] at h3 h4
  obtain ⟨e1, _, e3⟩ := h4 hfree
  rw [if_pos hlen] at e3
  refine ⟨?_, e1, ?_, e3⟩
  · unfold delivered
    rw [hpend]
    simp only [List.length_nil, Nat.sub_zero, List.take_length]
  · have := h2.2.2.1
    omega

/-- The ceiling is reached: a stream of `MAX_BUFFER` bytes without newline,
all ready at the first call, is read whole by that call, which grows the
capacity to `MAX_BUFFER`, reports the null block and count 0 and discards the
data. -/
theorem readlines_discard_reached :
    ∃ stream sched : List Nat, 10 ∉ stream
      ∧ (carry Statics.initial
          ++ delivered ⟨stream, sched⟩ (readlines Statics.initial ⟨stream, sched⟩).2.2).length
        = MAX_BUFFER
      ∧ (readlines Statics.initial ⟨stream, sched⟩).1 = ⟨none, 0⟩
      ∧ (readlines Statics.initial ⟨stream, sched⟩).2.1.buffersize = MAX_BUFFER
      ∧ carry (readlines Statics.initial ⟨stream, sched⟩).2.1 = [] := by
  have hfree : (10 : Nat) ∉ List.replicate MAX_BUFFER 97 := by
    intro h
    have := List.eq_of_mem_replicate h
    omega
  obtain ⟨h1, h2, h3, h4⟩ := readlines_full (List.replicate MAX_BUFFER 97)
    (List.length_replicate _ _) hfree
  refine ⟨List.replicate MAX_BUFFER 97, 4096 :: List.replicate 255 4096, hfree, ?_, h2, h3, h4⟩
  rw [h1]
  exact List.length_replicate _ _

/-! ## Device nodes: the published texts -/

theorem string_append_assoc (a b c : String) : a ++ b ++ c = a ++ (b ++ c) := by
  apply String.ext
  simp [String.data_append, List.append_assoc]

theorem string_append_empty (a : String) : a ++ "" = a := by
  apply String.ext
  simp [String.data_append]

theorem string_empty_append (a : String) : "" ++ a = a := by
  apply String.ext
  simp [String.data_append]

/-- The text printed into the features file: vendor, product and then the
capability tokens, separated by single spaces and closed by a newline. -/
theorem featuresText_eq (env : Env) (kb : usbdevice) :
    featuresText env kb = " ".intercalate
      (env.vendor_str kb.vendor :: env.product_str kb.product :: capabilityTokens kb) ++ "\n" := by
  unfold featuresText capabilityTokens
  simp only [List.filterMap_cons, List.filterMap_nil]
  cases HAS_FEATURES kb FEAT_RGB <;> cases HAS_FEATURES kb FEAT_POLLRATE <;>
    cases HAS_FEATURES kb FEAT_BIND <;> cases HAS_FEATURES kb FEAT_NOTIFY <;>
    cases HAS_FEATURES kb FEAT_FWVERSION <;> cases HAS_FEATURES kb FEAT_FWUPDATE <;>
    simp [String.intercalate, String.intercalate.go, string_append_assoc]

theorem foldl_append_join (l : List String) : ∀ a : String,
    l.foldl (fun r s => r ++ s) a = a ++ String.join l := by
  induction l with
  | nil => intro a; simp [String.join, string_append_empty]
  | cons x xs ih =>
    intro a
    rw [List.foldl_cons, ih]
    have : String.join (x :: xs) = x ++ String.join xs := by
      unfold String.join
      rw [List.foldl_cons, ih ("" ++ x), string_empty_append]
      rfl
    rw [this, string_append_assoc]

theorem join_cons (x : String) (xs : List String) : String.join (x :: xs) = x ++ String.join xs := by
  unfold String.join
  rw [List.foldl_cons, foldl_append_join, string_empty_append]
  rfl

theorem connectedStep_foldl (env : Env) (keyboard : Nat → usbdevice) (l : List Nat) :
    ∀ acc : Bool × String, l.foldl (connectedStep env keyboard) acc
      = (acc.1 || !(l.filter (fun i => env.IS_CONNECTED (keyboard i))).isEmpty,
          acc.2 ++ String.join ((l.filter (fun i => env.IS_CONNECTED (keyboard i))).map
            (fun i => connectedLine i (keyboard i)))) := by
  induction l with
  | nil => intro acc; simp [String.join, string_append_empty]
  | cons x xs ih =>
    intro acc
    rw [List.foldl_cons, ih]
    unfold connectedStep
    cases hx : env.IS_CONNECTED (keyboard x)
    · simp [hx]
    · simp [hx, join_cons, string_append_assoc]

theorem connectedSlots_eq (env : Env) (keyboard : Nat → usbdevice) :
    connectedSlots env keyboard
      = (List.range' 1 (env.DEV_MAX - 1)).filter (fun i => env.IS_CONNECTED (keyboard i)) := by
  unfold connectedSlots
  cases h : env.DEV_MAX with
  | zero => simp
  | succ n =>
    rw [List.range_eq_range', List.range'_succ]
    simp only [Nat.zero_add, Nat.add_sub_cancel, List.filter_cons]
    have h0 : (decide (1 ≤ 0) && env.IS_CONNECTED (keyboard 0)) = false := by simp
    rw [h0]
    simp only [Bool.false_eq_true, if_false]
    apply List.filter_congr
    intro i hi
    have := (List.mem_range'_1.1 hi).1
    simp [this]

theorem connectedText_eq (env : Env) (keyboard : Nat → usbdevice) :
    connectedText env keyboard = listingText env keyboard := by
  unfold connectedText listingText
  rw [connectedSlots_eq]
  simp only [connectedStep_foldl, Bool.false_or, string_empty_append]
  cases h : (List.range' 1 (env.DEV_MAX - 1)).filter (fun i => env.IS_CONNECTED (keyboard i)) with
  | nil => simp [String.join, string_empty_append]
  | cons x xs => simp

/-! ## Device nodes: the filesystem -/

mutual
theorem rmNode_none : ∀ n : Node, rmNode n = none
  | .file _ _ _ => by simp [rmNode]
  | .fifo _ _ => by simp [rmNode]
  | .dir m g es => by simp [rmNode, rmEntries_nil es]
theorem rmEntries_nil : ∀ es : List (String × Node), rmEntries es = []
  | [] => by simp [rmEntries]
  | (name, n) :: rest => by simp [rmEntries, rmNode_none n, rmEntries_nil rest]
end

theorem lookup_delEntry_self (fs : Dir) (path : String) : (delEntry fs path).lookup path = none := by
  induction fs with
  | nil => rfl
  | cons e es ih =>
    unfold delEntry at ih ⊢
    rw [List.filter_cons]
    by_cases h : e.1 = path
    · simp [h, ih]
    · have hb : (e.1 != path) = true := by simpa using h
      rw [if_pos hb]
      obtain ⟨k, v⟩ := e
      rw [List.lookup_cons]
      have : (path == k) = false := by
        simp only [beq_eq_false_iff_ne, ne_eq]
        exact fun e => h e.symm
      rw [this]
      exact ih

theorem delEntry_of_lookup_none (fs : Dir) (path : String) (h : fs.lookup path = none) :
    delEntry fs path = fs := by
  induction fs with
  | nil => rfl
  | cons e es ih =>
    obtain ⟨k, v⟩ := e
    rw [List.lookup_cons] at h
    by_cases hk : path = k
    · simp [hk] at h
    · have hb : (path == k) = false := by simpa using hk
      rw [hb] at h
      unfold delEntry at ih ⊢
      rw [List.filter_cons]
      have hb2 : (k != path) = true := by simpa using fun e => hk e.symm
      simp only [hb2, if_true]
      rw [ih h]

theorem delEntry_idem (fs : Dir) (path : String) :
    delEntry (delEntry fs path) path = delEntry fs path :=
  delEntry_of_lookup_none _ _ (lookup_delEntry_self fs path)

theorem rm_recursive_eq (fs : Dir) (path : String) :
    (rm_recursive fs path).2.2 = delEntry fs path
      ∧ ¬ ((rm_recursive fs path).1 ≠ 0 ∧ (rm_recursive fs path).2.1 = false) := by
  unfold rm_recursive
  cases h : fs.lookup path with
  | none => simp [delEntry_of_lookup_none fs path h]
  | some n => simp [rmNode_none n]

theorem lookup_append_new (A : Dir) (path : String) (n : Node) (hA : A.lookup path = none) :
    (A ++ [(path, n)]).lookup path = some n := by
  induction A with
  | nil => simp [List.lookup]
  | cons e es ih =>
    obtain ⟨k, v⟩ := e
    rw [List.lookup_cons] at hA
    by_cases hk : path = k
    · simp [hk] at hA
    · have hb : (path == k) = false := by simpa using hk
      rw [hb] at hA
      rw [List.cons_append, List.lookup_cons, hb]
      exact ih hA

theorem modEntry_append_new (A : Dir) (path : String) (n : Node) (f : Node → Node)
    (hA : A.lookup path = none) :
    modEntry (A ++ [(path, n)]) path f = A ++ [(path, f n)] := by
  induction A with
  | nil => simp [modEntry]
  | cons e es ih =>
    obtain ⟨k, v⟩ := e
    rw [List.lookup_cons] at hA
    by_cases hk : path = k
    · simp [hk] at hA
    · have hb : (path == k) = false := by simpa using hk
      rw [hb] at hA
      have := ih hA
      unfold modEntry at this ⊢
      rw [List.cons_append, List.map_cons, this]
      have hk2 : ¬ k = path := fun e => hk e.symm
      simp [hk2]

theorem inDir_append_new (A : Dir) (path : String) (m : Nat) (g : Int) (es : Dir) (f : Dir → Dir)
    (hA : A.lookup path = none) :
    inDir (A ++ [(path, .dir m g es)]) path f = A ++ [(path, .dir m g (f es))] := by
  unfold inDir
  rw [modEntry_append_new A path _ _ hA]

theorem mkfifo_append_new (A : Dir) (path name : String) (m mode : Nat) (g : Int) (es : Dir)
    (hA : A.lookup path = none) (hn : es.lookup name = none) :
    mkfifo (A ++ [(path, .dir m g es)]) path name mode
      = some (A ++ [(path, .dir m g (es ++ [(name, .fifo mode 0)]))]) := by
  unfold mkfifo
  rw [lookup_append_new A path _ hA]
  simp only [hn, Option.isSome_none, Bool.false_eq_true, if_false]
  rw [inDir_append_new A path m g es _ hA]

theorem writeFile_append_new (A : Dir) (path name text : String) (m : Nat) (g : Int) (es : Dir)
    (hA : A.lookup path = none) (hn : es.lookup name = none) :
    writeFile (A ++ [(path, .dir m g es)]) path name text
      = some (A ++ [(path, .dir m g (es ++ [(name, .file 0o666 0 text)]))]) := by
  unfold writeFile
  rw [lookup_append_new A path _ hA]
  simp only [hn]
  rw [inDir_append_new A path m g es _ hA]

theorem chmodChown_append_new (env : Env) (A : Dir) (path name cn : String) (m mode : Nat)
    (g : Int) (es : Dir) (hA : A.lookup path = none) :
    chmodChown env (A ++ [(path, .dir m g es)]) path name mode cn
      = A ++ [(path, .dir m g (if env.gid ≥ 0 then
          modEntry (modEntry es name (fun n => n.chmod mode)) cn (fun n => n.chown env.gid)
          else modEntry es name (fun n => n.chmod mode)))] := by
  unfold chmodChown
  simp only [inDir_append_new A path m g _ _ hA]
  split <;> rfl

theorem publish_append_new (env : Env) (A : Dir) (path name text cn : String) (m mode : Nat)
    (g : Int) (es : Dir) (hA : A.lookup path = none) (hn : es.lookup name = none) :
    publish env (A ++ [(path, .dir m g es)]) (path, name) text mode cn
      = (true, A ++ [(path, .dir m g (if env.gid ≥ 0 then
          modEntry (modEntry (es ++ [(name, .file 0o666 0 text)]) name (fun n => n.chmod mode))
            cn (fun n => n.chown env.gid)
          else modEntry (es ++ [(name, .file 0o666 0 text)]) name (fun n => n.chmod mode)))]) := by
  unfold publish
  simp only []
  rw [writeFile_append_new A path name text m g es hA hn]
  simp only [chmodChown_append_new env A path name cn m mode g _ hA]

theorem slotPath_eq (index : Nat) (h : index < 10) :
    snprintf (devpath.length + 2) (devpath ++ toString index) = devpath ++ toString index := by
  interval_cases index <;> decide

theorem childPath_connected :
    splitPath (snprintf (devpath.length + 12) (devpath ++ "0/connected"))
      = (devpath ++ "0", "connected") := by
  decide

theorem childPath_version :
    splitPath (snprintf (devpath.length + 2 + 8) (devpath ++ "0" ++ "/version"))
      = (devpath ++ "0", "version") := by
  decide

theorem childPath_pid :
    splitPath (snprintf (devpath.length + 2 + 4) (devpath ++ "0" ++ "/pid"))
      = (devpath ++ "0", "pid") := by
  decide

theorem childPath_cmd (index : Nat) (h : index < 10) :
    splitPath (snprintf (devpath.length + 2 + 4) (devpath ++ toString index ++ "/cmd"))
      = (devpath ++ toString index, "cmd") := by
  interval_cases index <;> decide

theorem childPath_model (index : Nat) (h : index < 10) :
    splitPath (snprintf (devpath.length + 2 + 6) (devpath ++ toString index ++ "/model"))
      = (devpath ++ toString index, "model") := by
  interval_cases index <;> decide

theorem childPath_serial (index : Nat) (h : index < 10) :
    splitPath (snprintf (devpath.length + 2 + 7) (devpath ++ toString index ++ "/serial"))
      = (devpath ++ toString index, "serial") := by
  interval_cases index <;> decide

theorem childPath_features (index : Nat) (h : index < 10) :
    splitPath (snprintf (devpath.length + 2 + 9) (devpath ++ toString index ++ "/features"))
      = (devpath ++ toString index, "features") := by
  interval_cases index <;> decide

theorem childPath_fwversion (index : Nat) (h : index < 10) :
    splitPath (snprintf (devpath.length + 12) (devpath ++ toString index ++ "/fwversion"))
      = (devpath ++ toString index, "fwversion") := by
  interval_cases index <;> decide

theorem childPath_pollrate (index : Nat) (h : index < 10) :
    splitPath (snprintf (devpath.length + 11) (devpath ++ toString index ++ "/pollrate"))
      = (devpath ++ toString index, "pollrate") := by
  interval_cases index <;> decide

theorem childPath_notify0 (index : Nat) (h : index < 10) :
    splitPath (snprintf (devpath.length + 10)
        (devpath ++ toString index ++ "/notify" ++ toString (0 : Int)))
      = (devpath ++ toString index, "notify0") := by
  interval_cases index <;> decide

theorem mkdir_fresh (A : Dir) (path : String) (mode : Nat) (hA : A.lookup path = none) :
    mkdir A path mode = some (A ++ [(path, .dir mode 0 [])]) := by
  unfold mkdir
  simp [hA]

/-- The root slot: whatever the filesystem holds at the path, `mkdevpath`
succeeds and leaves exactly `rootTree` there. -/
theorem mkdevpath_root (env : Env) (keyboard : Nat → usbdevice) (kb : usbdevice) (sys : Sys) :
    mkdevpath env keyboard 0 kb sys
      = (0, kb, ⟨delEntry sys.fs (devpath ++ "0") ++ [(devpath ++ "0", rootTree env keyboard)],
          sys.nextfd⟩) := by
  have hp : snprintf (devpath.length + 2) (devpath ++ toString 0) = devpath ++ "0" := by decide
  obtain ⟨hrm1, hrm2⟩ := rm_recursive_eq sys.fs (devpath ++ "0")
  have hA := lookup_delEntry_self sys.fs (devpath ++ "0")
  unfold mkdevpath updateconnected
  simp only [hp, childPath_connected, childPath_version, childPath_pid, if_neg hrm2, hrm1,
    mkdir_fresh _ _ _ hA, if_true]
  generalize delEntry sys.fs (devpath ++ "0") = A at hA
  unfold rootTree ownedGroup
  by_cases hg : env.gid ≥ 0
  · simp only [if_pos hg, modEntry_append_new A _ _ _ hA, Node.chown]
    rw [writeFile_append_new A _ _ _ _ _ _ hA (by rfl)]
    simp only [chmodChown_append_new env A _ _ _ _ _ _ _ hA, if_pos hg]
    rw [publish_append_new env A _ _ _ _ _ _ _ _ hA (by simp [modEntry, List.lookup])]
    simp only [if_pos hg]
    rw [publish_append_new env A _ _ _ _ _ _ _ _ hA (by simp [modEntry, List.lookup])]
    simp [modEntry, Node.chmod, Node.chown, hg]
  · simp only [if_neg hg]
    rw [writeFile_append_new A _ _ _ _ _ _ hA (by rfl)]
    simp only [chmodChown_append_new env A _ _ _ _ _ _ _ hA, if_neg hg]
    rw [publish_append_new env A _ _ _ _ _ _ _ _ hA (by simp [modEntry, List.lookup])]
    simp only [if_neg hg]
    rw [publish_append_new env A _ _ _ _ _ _ _ _ hA (by simp [modEntry, List.lookup])]
    simp [modEntry, Node.chmod, Node.chown, hg]

theorem featuresText_congr (env : Env) (kb kb2 : usbdevice) (hv : kb2.vendor = kb.vendor)
    (hp : kb2.product = kb.product) (hf : kb2.features = kb.features) :
    featuresText env kb2 = featuresText env kb := by
  unfold featuresText HAS_FEATURES
  rw [hv, hp, hf]

theorem chown_dir (m : Nat) (g g2 : Int) (es : List (String × Node)) :
    (Node.dir m g es).chown g2 = Node.dir m g2 es := rfl

set_option maxHeartbeats 3200000 in
/-- A hardware slot with a working `open`: whatever the filesystem holds at the
path, `mkdevpath` succeeds and leaves `hwTree` there, with the node `notify0`
exactly when notification channel 0 of the record was closed at the call. -/
theorem mkdevpath_hw (env : Env) (keyboard : Nat → usbdevice) (index : Nat) (kb : usbdevice)
    (sys : Sys) (hlt : index < 10) (hidx : index ≠ 0) (hfd : 0 < sys.nextfd) :
    mkdevpath env keyboard index kb sys
      = if kb.outfifo.getD 0 0 ≠ 0 then
          (0, { kb with infifo := sys.nextfd },
            ⟨delEntry sys.fs (devpath ++ toString index)
              ++ [(devpath ++ toString index, hwTree env kb false)], sys.nextfd + 1⟩)
        else
          (0, { kb with infifo := sys.nextfd, outfifo := kb.outfifo.set 0 (sys.nextfd + 1) },
            ⟨delEntry sys.fs (devpath ++ toString index)
              ++ [(devpath ++ toString index, hwTree env kb true)], sys.nextfd + 1 + 1⟩) := by
  obtain ⟨hrm1, hrm2⟩ := rm_recursive_eq sys.fs (devpath ++ toString index)
  have hA := lookup_delEntry_self sys.fs (devpath ++ toString index)
  have hfd' : ¬ sys.nextfd ≤ 0 := by omega
  have hfd2 : ¬ sys.nextfd + 1 ≤ 0 := by omega
  have hrange : ¬ ((0 : Int) < 0 ∨ (0 : Int) ≥ (OUTFIFO_MAX : Int)) := by decide
  unfold mkdevpath mkfwnode mknotifynode
  simp only [slotPath_eq index hlt, childPath_cmd index hlt, childPath_model index hlt,
    childPath_serial index hlt, childPath_features index hlt, childPath_fwversion index hlt,
    childPath_pollrate index hlt, childPath_notify0 index hlt, if_neg hrm2, hrm1,
    mkdir_fresh _ _ _ hA, if_neg hidx]
  generalize delEntry sys.fs (devpath ++ toString index) = A at hA
  generalize devpath ++ toString index = path at hA
  unfold hwTree ownedGroup
  by_cases hg : env.gid ≥ 0 <;> by_cases ho : kb.outfifo.getD 0 0 ≠ 0
  all_goals
    try rw [if_pos ho]
    try rw [if_neg ho]
    simp only [hg, ↓reduceIte, modEntry_append_new A _ _ _ hA, chown_dir]
    rw [mkfifo_append_new A _ _ _ _ _ _ hA (by rfl)]
    simp only [if_neg hfd', inDir_append_new A _ _ _ _ _ hA]
    simp only [if_neg hrange, Int.toNat_zero, if_neg hfd2]
    try rw [if_pos ho]
    try rw [if_neg ho]
    try rw [mkfifo_append_new A _ _ _ _ _ _ hA (by simp [modEntry, List.lookup])]
    try simp only [hg, ↓reduceIte, inDir_append_new A _ _ _ _ _ hA]
    rw [publish_append_new env A _ _ _ _ _ _ _ _ hA (by simp [modEntry, List.lookup])]
    simp only [hg, ↓reduceIte]
    rw [publish_append_new env A _ _ _ _ _ _ _ _ hA (by simp [modEntry, List.lookup])]
    simp only [hg, ↓reduceIte]
    rw [publish_append_new env A _ _ _ _ _ _ _ _ hA (by simp [modEntry, List.lookup])]
    simp only [hg, ↓reduceIte]
    rw [publish_append_new env A _ _ _ _ _ _ _ _ hA (by simp [modEntry, List.lookup])]
    simp only [hg, ↓reduceIte, Bool.true_eq_false]
    rw [publish_append_new env A _ _ _ _ _ _ _ _ hA (by simp [modEntry, List.lookup])]
    simp [modEntry, Node.chmod, Node.chown, hg, featuresText, HAS_FEATURES]

/-! ## Device nodes: the claims -/

theorem nodeAt_append_new (A : Dir) (path name : String) (m : Nat) (g : Int) (es : Dir)
    (hA : A.lookup path = none) :
    nodeAt (A ++ [(path, .dir m g es)]) path name = es.lookup name := by
  unfold nodeAt
  rw [lookup_append_new A path _ hA]

/-- C9: the text that `updateconnected` prints is the listing text: one line
`<devpath><i> <serial> <name>` for each connected slot `i` with
`1 <= i < DEV_MAX`, in ascending order, and a single newline when no slot is
connected; `updateconnected` is the write of that text to the file `connected`
of the root directory, followed by `chmod` and `chown`; and `mkdevpath` on the
root slot leaves the file `connected` with exactly that text. -/
theorem updateconnected_listing (env : Env) (keyboard : Nat → usbdevice) (fs : Dir) :
    connectedText env keyboard
        = (if (List.range env.DEV_MAX).filter
              (fun i => decide (1 ≤ i) && env.IS_CONNECTED (keyboard i)) = [] then "\n"
          else String.join (((List.range env.DEV_MAX).filter
              (fun i => decide (1 ≤ i) && env.IS_CONNECTED (keyboard i))).map
              (fun i => devpath ++ toString i ++ " " ++ (keyboard i).serial ++ " "
                ++ (keyboard i).name ++ "\n")))
      ∧ connectedText env keyboard = listingText env keyboard
      ∧ updateconnected env keyboard fs
        = (match writeFile fs (devpath ++ "0") "connected" (listingText env keyboard) with
          | none => fs
          | some fs1 =>
            chmodChown env fs1 (devpath ++ "0") "connected" (S_GID_READ env) "connected")
      ∧ ∀ (kb : usbdevice) (sys : Sys),
          nodeAt (mkdevpath env keyboard 0 kb sys).2.2.fs (devpath ++ "0") "connected"
            = some (.file (S_GID_READ env) (ownedGroup env) (listingText env keyboard)) := by
  refine ⟨?_, connectedText_eq env keyboard, ?_, ?_⟩
  · rw [connectedText_eq]
    rfl
  · unfold updateconnected
    simp only [childPath_connected]
    rw [connectedText_eq]
  · intro kb sys
    rw [mkdevpath_root, ← connectedText_eq]
    unfold rootTree
    simp only []
    rw [nodeAt_append_new _ _ _ _ _ _ (lookup_delEntry_self sys.fs (devpath ++ "0"))]
    simp [List.lookup]

/-- C10, as stated, fails: for a device with the capabilities `rgb` and `bind`
the features text starts with the vendor and the product name, so it is not
the list of the capability tokens alone. -/
theorem featuresText_counterexample :
    ¬ (featuresText sampleEnv sampleKb
        = " ".intercalate (capabilityTokens sampleKb) ++ "\n") := by
  decide

/-- C10, amended: the features text is the vendor name, the product name and
then exactly the capability tokens whose bit is set, in the order `rgb`,
`pollrate`, `bind`, `notify`, `fwversion`, `fwupdate`, separated by single
spaces and closed by a newline; and on a hardware slot of a registry of at most
ten slots, with `open` returning a positive descriptor, `mkdevpath` leaves a
regular file `features` with exactly this text. -/
theorem mkdevpath_features (env : Env) (keyboard : Nat → usbdevice) (index : Nat)
    (kb : usbdevice) (sys : Sys) (hmax : env.DEV_MAX ≤ 10) (hslot : index < env.DEV_MAX)
    (hidx : index ≠ 0) (hfd : 0 < sys.nextfd) :
    featuresText env kb = " ".intercalate
        (env.vendor_str kb.vendor :: env.product_str kb.product :: capabilityTokens kb) ++ "\n"
      ∧ nodeAt (mkdevpath env keyboard index kb sys).2.2.fs (devpath ++ toString index) "features"
        = some (.file (S_GID_READ env) (ownedGroup env) (" ".intercalate
            (env.vendor_str kb.vendor :: env.product_str kb.product :: capabilityTokens kb)
              ++ "\n")) := by
  refine ⟨featuresText_eq env kb, ?_⟩
  rw [mkdevpath_hw env keyboard index kb sys (by omega) hidx hfd, ← featuresText_eq]
  have hA := lookup_delEntry_self sys.fs (devpath ++ toString index)
  split
  · unfold hwTree
    rw [nodeAt_append_new _ _ _ _ _ _ hA]
    simp [List.lookup]
  · unfold hwTree
    rw [nodeAt_append_new _ _ _ _ _ _ hA]
    simp [List.lookup]

theorem mkdevpath_features_witness :
    featuresText sampleEnv sampleKb = "corsair k70 rgb bind\n" :=
  (mkdevpath_features sampleEnv (fun _ => sampleKb) 1 sampleKb ⟨[], 3⟩
    (by decide) (by decide) (by decide) (by decide)).1.trans (by decide)

theorem delEntry_append_new (A : Dir) (path : String) (n : Node) (hA : A.lookup path = none) :
    delEntry (A ++ [(path, n)]) path = A := by
  unfold delEntry
  rw [List.filter_append]
  have h1 : List.filter (fun e : String × Node => e.1 != path) A = A :=
    delEntry_of_lookup_none A path hA
  rw [h1]
  simp [List.filter]

/-- C8, as stated, fails: on a hardware slot, the subtree produced by a first
`mkdevpath` holds the node `notify0`; a second `mkdevpath` on the device record
left by the first one ends with a subtree without that node. -/
theorem mkdevpath_repeat_counterexample :
    ¬ ((mkdevpath sampleEnv (fun _ => sampleKb) 1
          (mkdevpath sampleEnv (fun _ => sampleKb) 1 sampleKb ⟨[], 3⟩).2.1
          (mkdevpath sampleEnv (fun _ => sampleKb) 1 sampleKb ⟨[], 3⟩).2.2).2.2.fs
        = (mkdevpath sampleEnv (fun _ => sampleKb) 1 sampleKb ⟨[], 3⟩).2.2.fs) := by
  have h1 := mkdevpath_hw sampleEnv (fun _ => sampleKb) 1 sampleKb ⟨[], 3⟩
    (by decide) (by decide) (by decide)
  rw [if_neg (by decide)] at h1
  rw [h1]
  have h2 := mkdevpath_hw sampleEnv (fun _ => sampleKb) 1
    { sampleKb with infifo := 3, outfifo := sampleKb.outfifo.set 0 (3 + 1) }
    ⟨delEntry [] (devpath ++ toString 1) ++ [(devpath ++ toString 1, hwTree sampleEnv sampleKb true)],
      3 + 1 + 1⟩ (by decide) (by decide) (by decide)
  rw [if_pos (by decide)] at h2
  simp only [] at h2 ⊢
  rw [h2]
  intro h
  have h3 := congrArg (fun fs => (nodeAt fs (devpath ++ toString 1) "notify0").isSome) h
  revert h3
  simp only [delEntry, List.filter_nil, List.nil_append, List.filter_cons]
  decide

/-- C8, amended: take a registry of at most ten slots and let `open` return
positive descriptors.  For every slot, device record and filesystem,
`mkdevpath` ends in the same state whether or not a subtree, stale or not,
exists at the device's path beforehand.  On the root slot a second `mkdevpath`
on the state left by the first one reproduces that state.  On a hardware slot
the tree holds every node of `hwTree`, with `notify0` exactly when notification
channel 0 of the record is closed at the call; so when that channel was closed
before a first call, a second call on the record left by the first one leaves
the same tree without the node `notify0`. -/
theorem mkdevpath_idempotent (env : Env) (keyboard : Nat → usbdevice) (index : Nat)
    (kb : usbdevice) (sys : Sys) (hmax : env.DEV_MAX ≤ 10) (hslot : index < env.DEV_MAX)
    (hfd : 0 < sys.nextfd) :
    mkdevpath env keyboard index kb sys
        = mkdevpath env keyboard index kb
            { sys with fs := delEntry sys.fs (devpath ++ toString index) }
      ∧ (mkdevpath env keyboard index kb sys).1 = 0
      ∧ (index = 0 →
          mkdevpath env keyboard index (mkdevpath env keyboard index kb sys).2.1
              (mkdevpath env keyboard index kb sys).2.2
            = mkdevpath env keyboard index kb sys)
      ∧ (index ≠ 0 →
          (mkdevpath env keyboard index kb sys).2.2.fs
            = delEntry sys.fs (devpath ++ toString index)
              ++ [(devpath ++ toString index,
                  hwTree env kb (decide (kb.outfifo.getD 0 0 = 0)))])
      ∧ (index ≠ 0 → kb.outfifo.getD 0 0 = 0 → 0 < kb.outfifo.length →
          (mkdevpath env keyboard index (mkdevpath env keyboard index kb sys).2.1
              (mkdevpath env keyboard index kb sys).2.2).2.2.fs
            = delEntry sys.fs (devpath ++ toString index)
              ++ [(devpath ++ toString index, hwTree env kb false)]) := by
  have hlt : index < 10 := by omega
  have hA := lookup_delEntry_self sys.fs (devpath ++ toString index)
  by_cases h0 : index = 0
  · subst h0
    have hp : devpath ++ toString 0 = devpath ++ "0" := by decide
    rw [hp] at hA ⊢
    simp only [mkdevpath_root, delEntry_idem, delEntry_append_new _ _ _ hA, true_and,
      implies_true, ne_eq, not_true_eq_false, false_implies, and_self]
  · have e1 := mkdevpath_hw env keyboard index kb sys hlt h0 hfd
    have e2 := mkdevpath_hw env keyboard index kb
      { sys with fs := delEntry sys.fs (devpath ++ toString index) } hlt h0 hfd
    simp only [delEntry_idem] at e2
    refine ⟨by rw [e1, e2], ?_, fun h => absurd h h0, ?_, ?_⟩
    · rw [e1]; split <;> rfl
    · intro _
      rw [e1]
      by_cases ho : kb.outfifo.getD 0 0 = 0
      · rw [if_neg (by simpa using ho)]
        simp only [ho, decide_True]
      · rw [if_pos ho]
        simp only [ho, decide_False]
    · intro _ ho hlen
      rw [e1, if_neg (by simpa using ho)]
      have e3 := mkdevpath_hw env keyboard index
        { kb with infifo := sys.nextfd, outfifo := kb.outfifo.set 0 (sys.nextfd + 1) }
        ⟨delEntry sys.fs (devpath ++ toString index)
          ++ [(devpath ++ toString index, hwTree env kb true)], sys.nextfd + 1 + 1⟩
        hlt h0 (by simp)
      have hopen : (kb.outfifo.set 0 (sys.nextfd + 1)).getD 0 0 ≠ 0 := by
        cases hk : kb.outfifo with
        | nil => rw [hk] at hlen; simp at hlen
        | cons x xs => simp [List.set]
      simp only [] at e3 ⊢
      rw [if_pos hopen] at e3
      rw [e3]
      simp only [delEntry_append_new _ _ _ hA]
      rfl

theorem mkdevpath_idempotent_witness :
    (mkdevpath sampleEnv (fun _ => sampleKb) 1 sampleKb
        ⟨[(devpath ++ toString 1, .dir 0o700 0 [("stale", .file 0o400 0 "old")])], 3⟩).1 = 0 :=
  (mkdevpath_idempotent sampleEnv (fun _ => sampleKb) 1 sampleKb
    ⟨[(devpath ++ toString 1, .dir 0o700 0 [("stale", .file 0o400 0 "old")])], 3⟩
    (by decide) (by decide) (by decide)).2.1
end Ckb
